import Mathlib

/-!
Shallow embedding of the LOE_Validator validation engine
(`backend/services/validator_service.py` together with the data model of
`backend/models/schemas.py`), and proofs of the specified properties of the
matching, complexity-scoring, duration-validation and aggregation pipeline.

Python floats are modelled as rationals (`ℚ`); the claims under study do not
depend on binary floating-point rounding.  The `rapidfuzz` similarity
functions used by the matcher (`fuzz.ratio`, `fuzz.partial_ratio`,
`fuzz.token_sort_ratio`) are modelled by their documented algorithms:
normalized indel similarity (via longest common subsequence), best window
alignment of the shorter string inside the longer one, and whitespace
tokenization + lexicographic sort before comparison.
-/

namespace LOE

/-! ## Data model (from `backend/models/schemas.py`) -/

/-- Validation result status (`ValidationStatus` in `schemas.py`). -/
inductive ValidationStatus where
  | PASS
  | WARNING
  | FAIL
deriving Repr, DecidableEq

/-- Task matching status (`MatchStatus` in `schemas.py`). -/
inductive MatchStatus where
  | EXACT
  | FUZZY
  | UNMATCHED
  | ORPHANED
deriving Repr, DecidableEq

/-- A task extracted from the SOW document (`SOWTask` in `schemas.py`). -/
structure SOWTask where
  phase : String
  task : String
  description : String
  owner : String := "TeraSky"
deriving Repr, DecidableEq

/-- An entry from the LOE Excel file (`LOEEntry` in `schemas.py`). -/
structure LOEEntry where
  task : String
  phase : Option String := none
  days : ℚ
  risk_buffer : Option ℚ := none
  total_days : Option ℚ := none
deriving Repr, DecidableEq

/-- The `effective_days` property of `LOEEntry` in `schemas.py`:
`total_days if total_days is not None else days`. -/
def LOEEntry.effective_days (e : LOEEntry) : ℚ :=
  match e.total_days with
  | some t => t
  | none => e.days

/-- A detected complexity factor (`ComplexityFactor` in `schemas.py`). -/
structure ComplexityFactor where
  keyword : String
  category : String
  multiplier : ℚ
deriving Repr, DecidableEq

/-- Complexity analysis result for a task (`ComplexityAnalysis` in `schemas.py`). -/
structure ComplexityAnalysis where
  task_description : String
  detected_task_type : Option String := none
  base_days : ℚ
  complexity_factors : List ComplexityFactor := []
  total_multiplier : ℚ := 1
  expected_days_min : ℚ
  expected_days_max : ℚ
  reasoning : String
deriving Repr, DecidableEq

/-- A matched pair of SOW task and LOE entry (`TaskMatch` in `schemas.py`). -/
structure TaskMatch where
  sow_task : SOWTask
  loe_entry : Option LOEEntry := none
  match_status : MatchStatus
  match_score : ℚ := 0
  complexity_analysis : Option ComplexityAnalysis := none
  duration_valid : Bool := true
  duration_variance : Option ℚ := none
  issues : List String := []
  warnings : List String := []
deriving Repr, DecidableEq

/-- Complete validation response (`ValidationResponse` in `schemas.py`).
The `report_path` and `validation_timestamp` metadata fields are not part of
the pure computation (the timestamp is read from the wall clock) and are
omitted. -/
structure ValidationResponse where
  status : ValidationStatus
  customer_name : Option String := none
  project_name : Option String := none
  total_sow_tasks : Nat := 0
  total_loe_entries : Nat := 0
  matched_tasks : Nat := 0
  unmatched_sow_tasks : Nat := 0
  orphaned_loe_entries : Nat := 0
  total_sow_expected_days : ℚ := 0
  total_loe_days : ℚ := 0
  total_variance_percent : ℚ := 0
  task_matches : List TaskMatch := []
  orphaned_entries : List LOEEntry := []
  sow_tasks : List SOWTask := []
  critical_issues : List String := []
  warnings : List String := []
  recommendations : List String := []
deriving Repr, DecidableEq

/-! ## Text helpers

Python string operations used by the validator: lower-casing, substring
containment (`in`), whitespace splitting (`str.split()`), and the Python
truthiness-based `x or y` on an optional float. -/

/-- `s.lower()` on the character list of a string. -/
def lowerChars (s : String) : List Char :=
  s.data.map Char.toLower

/-- Whether `needle` is a prefix of `hay` (character-wise equality). -/
def startsWithChars : List Char → List Char → Bool
  | [], _ => true
  | _ :: _, [] => false
  | a :: as, b :: bs => a == b && startsWithChars as bs

/-- Python substring containment `needle in hay`. -/
def containsSub (hay needle : List Char) : Bool :=
  match hay with
  | [] => needle.isEmpty
  | _ :: rest => startsWithChars needle hay || containsSub rest needle

/-- Python `t or d` where `t : Optional[float]`: `None` and `0.0` are falsy,
so the result is `t`'s value exactly when it is present and nonzero. -/
def pyOr (t : Option ℚ) (d : ℚ) : ℚ :=
  match t with
  | some x => if x = 0 then d else x
  | none => d

/-- Whitespace splitting, accumulator-based (`str.split()` drops empty runs). -/
def splitWsAux : List Char → List Char → List (List Char)
  | acc, [] => if acc.isEmpty then [] else [acc.reverse]
  | acc, c :: cs =>
    if c.isWhitespace then
      if acc.isEmpty then splitWsAux [] cs else acc.reverse :: splitWsAux [] cs
    else
      splitWsAux (c :: acc) cs

/-- Python `str.split()` with no argument: split on whitespace runs. -/
def splitWs (l : List Char) : List (List Char) :=
  splitWsAux [] l

/-- Lexicographic comparison of character lists by code point, as Python
compares strings. -/
def leChars : List Char → List Char → Bool
  | [], _ => true
  | _ :: _, [] => false
  | a :: as, b :: bs => if a == b then leChars as bs else a < b

/-- Insert a token into a sorted token list (stable insertion). -/
def insertTok (x : List Char) : List (List Char) → List (List Char)
  | [] => [x]
  | y :: ys => if leChars x y then x :: y :: ys else y :: insertTok x ys

/-- Python `sorted(tokens)` (insertion sort; stable, lexicographic). -/
def sortTokens : List (List Char) → List (List Char)
  | [] => []
  | t :: ts => insertTok t (sortTokens ts)

/-- `" ".join(tokens)`. -/
def joinTokens : List (List Char) → List Char
  | [] => []
  | [t] => t
  | t :: ts => t ++ ' ' :: joinTokens ts

/-! ## Longest common subsequence

Dynamic-programming computation of the LCS length, used to model the
normalized indel similarity that `rapidfuzz`'s `fuzz.ratio` computes:
`indel_distance = len1 + len2 - 2 * lcs`, and
`ratio = 100 * (1 - indel_distance / (len1 + len2)) = 100 * 2 * lcs / (len1 + len2)`. -/

/-- One row-update step of the LCS table: process character `x` against the
remaining column characters `ys`, given the cell diagonally above (`diag`),
the rest of the previous row (`up :: rest`) and the cell to the left. -/
def lcsGo (x : Char) : List Char → Nat → List Nat → Nat → List Nat
  | [], _, _, _ => []
  | _ :: _, _, [], _ => []
  | y :: ys, diag, up :: rest, left =>
    let cur := if x == y then diag + 1 else max left up
    cur :: lcsGo x ys up rest cur

/-- Compute the next full LCS row (leading cell is always `0`). -/
def lcsNextRow (x : Char) (ys : List Char) : List Nat → List Nat
  | [] => []
  | p0 :: rest => 0 :: lcsGo x ys p0 rest 0

/-- The final LCS table row after processing all of `xs`. -/
def lcsRows (xs ys : List Char) : List Nat :=
  xs.foldl (fun row x => lcsNextRow x ys row) (List.replicate (ys.length + 1) 0)

/-- Length of a longest common subsequence of `xs` and `ys`. -/
def lcsLen (xs ys : List Char) : Nat :=
  (lcsRows xs ys).getLastD 0

/-! ## rapidfuzz similarity models -/

/-- Model of `rapidfuzz.fuzz.ratio`: normalized indel similarity scaled to
`[0, 100]`; two empty strings score 100. -/
def fuzzRatio (a b : List Char) : ℚ :=
  if a.length + b.length = 0 then 100
  else 100 * (2 * (lcsLen a b : ℚ)) / ((a.length : ℚ) + (b.length : ℚ))

/-- Model of `rapidfuzz.fuzz.partial_ratio`: the best `fuzz.ratio` of the
shorter string against a window of its own length inside the longer string. -/
def fuzzPartialRatio (a b : List Char) : ℚ :=
  let s := if a.length ≤ b.length then a else b
  let l := if a.length ≤ b.length then b else a
  ((List.range (l.length - s.length + 1)).map
    (fun i => fuzzRatio s ((l.drop i).take s.length))).foldl max 0

/-- The token-sort preprocessing: split on whitespace, sort tokens, re-join. -/
def tokenSortProcess (a : List Char) : List Char :=
  joinTokens (sortTokens (splitWs a))

/-- Model of `rapidfuzz.fuzz.token_sort_ratio`: `fuzz.ratio` of the
token-sorted forms of both strings. -/
def fuzzTokenSortRatio (a b : List Char) : ℚ :=
  fuzzRatio (tokenSortProcess a) (tokenSortProcess b)

/-- The similarity score the matcher assigns to one SOW task / LOE entry
pair: `max` of the three strategies in `_match_tasks` (lines 298-304 of
`validator_service.py`). -/
def matchScore (sow : SOWTask) (entry : LOEEntry) : ℚ :=
  let sowTaskText := lowerChars sow.task
  let sowText := lowerChars (sow.task ++ " " ++ sow.description)
  let loeText := lowerChars entry.task
  max (max (fuzzRatio sowTaskText loeText) (fuzzPartialRatio sowTaskText loeText))
    (fuzzTokenSortRatio sowText loeText)

/-! ## Validator service configuration
(from `DEFAULT_COMPLEXITY_KEYWORDS` in `validator_service.py`; Python dicts
preserve insertion order, so ordered association lists model them) -/

/-- One complexity category: its description and ordered keyword/multiplier list. -/
structure CategoryData where
  description : String
  keywords : List (String × ℚ)
deriving Repr, DecidableEq

/-- The complexity-keywords configuration held by the service. -/
structure ComplexityKeywords where
  categories : List (String × CategoryData)
  task_type_base_days : List (String × ℚ)
deriving Repr, DecidableEq

/-- `DEFAULT_COMPLEXITY_KEYWORDS` (lines 29-106 of `validator_service.py`). -/
def DEFAULT_COMPLEXITY_KEYWORDS : ComplexityKeywords where
  categories :=
    [("architecture",
      { description := "Complex architectural patterns"
        keywords :=
          [("high availability", 1.5), ("ha", 1.5), ("stretched cluster", 2.0),
           ("multi-site", 1.8), ("disaster recovery", 1.5), ("dr", 1.5),
           ("federation", 1.4), ("distributed", 1.3)] }),
     ("integration",
      { description := "Integration complexity"
        keywords :=
          [("api", 1.3), ("api integration", 1.5), ("third-party", 1.4),
           ("sso", 1.3), ("single sign-on", 1.3), ("ldap", 1.2),
           ("active directory", 1.2), ("saml", 1.3), ("oauth", 1.3)] }),
     ("scale",
      { description := "Scale and performance factors"
        keywords :=
          [("enterprise", 1.5), ("large scale", 1.5), ("1000+ users", 1.8),
           ("5000+ users", 2.0), ("high performance", 1.4), ("optimization", 1.3)] }),
     ("security",
      { description := "Security and compliance"
        keywords :=
          [("zero trust", 1.5), ("hipaa", 1.4), ("pci-dss", 1.4), ("pci", 1.4),
           ("compliance", 1.3), ("encryption", 1.2), ("hardening", 1.3),
           ("security", 1.2)] }),
     ("migration",
      { description := "Migration complexity"
        keywords :=
          [("migration", 1.5), ("cutover", 1.5), ("data transfer", 1.4),
           ("upgrade", 1.3), ("conversion", 1.4)] })]
  task_type_base_days :=
    [("installation", 1.0), ("configuration", 1.5), ("integration", 2.0),
     ("migration", 3.0), ("training", 1.0), ("documentation", 0.5),
     ("testing", 1.5), ("planning", 1.0), ("design", 2.0), ("deployment", 2.0),
     ("validation", 1.0)]

/-- The validator service state (`ValidatorService.__init__`): the keyword
configuration (defaults used when none is supplied) and the fixed fuzzy-match
threshold of 70. -/
structure ValidatorService where
  complexity_keywords : ComplexityKeywords := DEFAULT_COMPLEXITY_KEYWORDS
  match_threshold : ℚ := 70
deriving Repr, DecidableEq

/-- A `ValidatorService()` constructed with the default configuration. -/
def defaultService : ValidatorService := {}

/-! ## Matcher (`_match_tasks`, lines 275-336 of `validator_service.py`) -/

/-- The inner loop of `_match_tasks`: scan the entries with their enumeration
index, skipping consumed indices, keeping the best (strictly greater) score
seen so far.  `best_idx = -1`/`best_match = None` is modelled by `none`. -/
def findBestAux (t : SOWTask) (used : List Nat) :
    List LOEEntry → Nat → ℚ × Option Nat → ℚ × Option Nat
  | [], _, best => best
  | e :: es, idx, best =>
    if idx ∈ used then findBestAux t used es (idx + 1) best
    else
      let s := matchScore t e
      if best.1 < s then findBestAux t used es (idx + 1) (s, some idx)
      else findBestAux t used es (idx + 1) best

/-- Best not-yet-consumed entry for one SOW task (score and index). -/
def findBest (t : SOWTask) (entries : List LOEEntry) (used : List Nat) :
    ℚ × Option Nat :=
  findBestAux t used entries 0 (0, none)

/-- The per-task body of `_match_tasks`: classify the best candidate, consume
its index when matched, and recurse over the remaining SOW tasks. -/
def matchTasksAux (th : ℚ) (entries : List LOEEntry) :
    List SOWTask → List Nat → List TaskMatch × List Nat
  | [], used => ([], used)
  | t :: ts, used =>
    let best := findBest t entries used
    if 95 ≤ best.1 then
      let used1 := best.2.elim used (fun i => i :: used)
      let rest := matchTasksAux th entries ts used1
      ({ sow_task := t, loe_entry := best.2.bind (fun i => entries.get? i),
         match_status := MatchStatus.EXACT, match_score := best.1 } :: rest.1,
       rest.2)
    else if th ≤ best.1 then
      let used1 := best.2.elim used (fun i => i :: used)
      let rest := matchTasksAux th entries ts used1
      ({ sow_task := t, loe_entry := best.2.bind (fun i => entries.get? i),
         match_status := MatchStatus.FUZZY, match_score := best.1 } :: rest.1,
       rest.2)
    else
      let rest := matchTasksAux th entries ts used
      ({ sow_task := t, loe_entry := none,
         match_status := MatchStatus.UNMATCHED, match_score := 0 } :: rest.1,
       rest.2)

/-- `_match_tasks`: ordered matches (one per SOW task) plus the orphaned
entries, i.e. the entries at indices never consumed, in original order. -/
def ValidatorService.matchTasks (svc : ValidatorService)
    (sow_tasks : List SOWTask) (loe_entries : List LOEEntry) :
    List TaskMatch × List LOEEntry :=
  let r := matchTasksAux svc.match_threshold loe_entries sow_tasks []
  (r.1,
   ((List.range loe_entries.length).filter (fun idx => ¬ idx ∈ r.2)).filterMap
     (fun idx => loe_entries.get? idx))

/-! ## Complexity analyzer (`_analyze_complexity`, lines 338-404) -/

/-- `", ".join(keywords)` used when building the reasoning text. -/
def joinComma : List String → String
  | [] => ""
  | [s] => s
  | s :: ss => s ++ ", " ++ joinComma ss

/-- `_analyze_complexity`: task-type detection (first base-days key occurring
as a substring of the lower-cased task+description text), one complexity
factor per category (first keyword found, then the category scan breaks),
multiplicative total multiplier, and the fixed 0.8/1.5 expected-range spread.
The numeric interpolation of the Python reasoning template
(`{total_multiplier:.2f}`) is elided; no claim depends on it. -/
def ValidatorService.analyzeComplexity (svc : ValidatorService)
    (description task_name : String) : ComplexityAnalysis :=
  let text := lowerChars (task_name ++ " " ++ description)
  let detected := svc.complexity_keywords.task_type_base_days.find?
    (fun p => containsSub text p.1.data)
  let detected_type := detected.map (fun p => p.1)
  let base_days := (detected.map (fun p => p.2)).getD 1.5
  let factors := svc.complexity_keywords.categories.filterMap
    (fun c => (c.2.keywords.find? (fun kw => containsSub text kw.1.data)).map
      (fun kw => ComplexityFactor.mk kw.1 c.1 kw.2))
  let total_multiplier :=
    if factors.isEmpty then 1.0
    else factors.foldl (fun acc f => acc * f.multiplier) 1.0
  let expected_min := base_days * total_multiplier * 0.8
  let expected_max := base_days * total_multiplier * 1.5
  let reasoning :=
    if factors.isEmpty then
      "Task type: " ++ (detected_type.getD "general") ++
        ". No significant complexity factors detected."
    else
      "Task type: " ++ (detected_type.getD "general") ++
        ". Complexity factors detected: " ++
        joinComma (factors.map (fun f => f.keyword)) ++
        ". Combined multiplier: x"
  { task_description := String.mk (description.data.take 200)
    detected_task_type := detected_type
    base_days := base_days
    complexity_factors := factors
    total_multiplier := total_multiplier
    expected_days_min := expected_min
    expected_days_max := expected_max
    reasoning := reasoning }

/-! ## Duration validation pass (`validate`, lines 144-174) -/

/-- The body of the per-match loop in `validate`: for a match holding an
entry, attach the complexity analysis, record the variance when the expected
midpoint is positive, and flag under- or over-estimated durations.  The numeric
interpolation of the Python message templates is elided; no claim depends on
it. -/
def ValidatorService.enrichMatch (svc : ValidatorService) (m : TaskMatch) :
    TaskMatch :=
  match m.loe_entry with
  | none => m
  | some entry =>
    let analysis := svc.analyzeComplexity m.sow_task.description m.sow_task.task
    let actual_days := pyOr entry.total_days entry.days
    let expected_mid := (analysis.expected_days_min + analysis.expected_days_max) / 2
    let m1 := { m with complexity_analysis := some analysis }
    if 0 < expected_mid then
      let variance := (actual_days - expected_mid) / expected_mid * 100
      let m2 := { m1 with duration_variance := some variance }
      if actual_days < analysis.expected_days_min * 0.5 then
        { m2 with duration_valid := false,
                  issues := m2.issues ++
                    ["Duration significantly under-estimated: days vs expected days"] }
      else if analysis.expected_days_max * 1.5 < actual_days then
        { m2 with duration_valid := false,
                  warnings := m2.warnings ++
                    ["Duration may be over-estimated: days vs expected days"] }
      else m2
    else m1

/-! ## Aggregation (`validate`, lines 122-273) -/

/-- Python `m.duration_variance and m.duration_variance < c`
(`None` and `0.0` are falsy). -/
def varianceBelow (v : Option ℚ) (c : ℚ) : Bool :=
  match v with
  | none => false
  | some x => if x = 0 then false else decide (x < c)

/-- Python `m.duration_variance and m.duration_variance > c`. -/
def varianceAbove (v : Option ℚ) (c : ℚ) : Bool :=
  match v with
  | none => false
  | some x => if x = 0 then false else decide (c < x)

/-- `ValidatorService.validate`: match, enrich every matched task with the
complexity analysis and duration validation, then aggregate counts, totals,
issues, warnings, recommendations and the overall status.  The message
strings keep the source wording with numeric interpolation elided. -/
def ValidatorService.validate (svc : ValidatorService)
    (sow_tasks : List SOWTask) (loe_entries : List LOEEntry)
    (customer_name : String := "Customer") (project_name : String := "Project") :
    ValidationResponse :=
  let mt := svc.matchTasks sow_tasks loe_entries
  let task_matches := mt.1.map svc.enrichMatch
  let orphaned := mt.2
  let matched_count :=
    task_matches.countP (fun m => decide (m.match_status ≠ MatchStatus.UNMATCHED))
  let unmatched_count :=
    task_matches.countP (fun m => decide (m.match_status = MatchStatus.UNMATCHED))
  let total_loe_days :=
    ((task_matches.filterMap (fun m => m.loe_entry)).map
      (fun e => pyOr e.total_days e.days)).sum +
    (orphaned.map (fun e => pyOr e.total_days e.days)).sum
  let total_expected_days :=
    ((task_matches.filterMap (fun m => m.complexity_analysis)).map
      (fun a => (a.expected_days_min + a.expected_days_max) / 2)).sum
  let total_variance :=
    if 0 < total_expected_days then
      (total_loe_days - total_expected_days) / total_expected_days * 100
    else 0
  let critical_issues :=
    if 0 < unmatched_count then
      ["SOW task(s) have no matching LOE entry. These tasks may be missing effort estimates."]
    else []
  let duration_issues := task_matches.countP (fun m => decide (m.duration_valid = false))
  let warnings :=
    (if ¬ orphaned.isEmpty then
      ["LOE entries have no matching SOW task. Review if these are overhead or out-of-scope items."]
     else []) ++
    (if 0 < duration_issues then
      ["task(s) have duration concerns. Review the Duration Analysis section."]
     else [])
  let recommendations :=
    (if 0 < unmatched_count then
      ["Add LOE entries for unmatched SOW tasks to ensure complete coverage."]
     else []) ++
    (if task_matches.any (fun m => varianceBelow m.duration_variance (-30)) then
      ["Review under-estimated tasks - consider complexity factors not accounted for."]
     else []) ++
    (if task_matches.any (fun m => varianceAbove m.duration_variance 50) then
      ["Review over-estimated tasks for potential efficiency gains or scope reduction."]
     else []) ++
    (if ¬ orphaned.isEmpty then
      ["Clarify orphaned LOE entries - add to SOW scope if billable, or mark as overhead."]
     else [])
  let status :=
    if ¬ critical_issues.isEmpty then ValidationStatus.FAIL
    else if ¬ warnings.isEmpty then ValidationStatus.WARNING
    else ValidationStatus.PASS
  { status := status
    customer_name := some customer_name
    project_name := some project_name
    total_sow_tasks := sow_tasks.length
    total_loe_entries := loe_entries.length
    matched_tasks := matched_count
    unmatched_sow_tasks := unmatched_count
    orphaned_loe_entries := orphaned.length
    total_sow_expected_days := total_expected_days
    total_loe_days := total_loe_days
    total_variance_percent := total_variance
    task_matches := task_matches
    orphaned_entries := orphaned
    sow_tasks := sow_tasks
    critical_issues := critical_issues
    warnings := warnings
    recommendations := recommendations }

/-! ## Concrete scenario inputs used by the specified test scenarios -/

/-- The scope item of the spec's HA-cluster scenario. -/
def haTask : SOWTask :=
  { phase := "Phase 1", task := "Install HA cluster",
    description := "deploy stretched cluster with high availability" }

/-- The estimate entry of the spec's HA-cluster scenario. -/
def haEntry : LOEEntry := { task := "Install HA cluster", days := 10 }

/-- A small scope item whose task text equals its entry's task text. -/
def alphaTask : SOWTask := { phase := "p", task := "alpha", description := "alpha" }

/-- An entry matching `alphaTask` exactly. -/
def alphaEntry : LOEEntry := { task := "alpha", days := 1 }

/-- An entry unrelated to `alphaTask`. -/
def betaEntry : LOEEntry := { task := "beta", days := 2 }

/-- An entry with `total_days = 0.0` next to a nonzero `days`, separating
Python truthiness from presence. -/
def zeroTotalEntry : LOEEntry := { task := "alpha", days := 5, total_days := some 0 }

/-! ## Score bounds

The three similarity models always return values in `[0, 100]`, hence so does
the matcher's combined `matchScore`.  The key facts are the two LCS bounds:
the LCS length is at most the length of either string. -/

theorem lcsGo_le (x : Char) (k : Nat) :
    ∀ (ys : List Char) (diag : Nat) (rest : List Nat) (left : Nat),
      diag ≤ k → (∀ v ∈ rest, v ≤ k) → left ≤ k + 1 →
      ∀ v ∈ lcsGo x ys diag rest left, v ≤ k + 1 := by
  intro ys
  induction ys with
  | nil => intro diag rest left _ _ _ v hv; simp [lcsGo] at hv
  | cons y ys ih =>
    intro diag rest left hdiag hrest hleft v hv
    cases rest with
    | nil => simp [lcsGo] at hv
    | cons up rest =>
      simp only [lcsGo] at hv
      have hcur : (if x == y then diag + 1 else max left up) ≤ k + 1 := by
        split
        · omega
        · have hup : up ≤ k := hrest up (by simp)
          omega
      rcases List.mem_cons.mp hv with h | h
      · omega
      · exact ih up rest _ (hrest up (by simp))
          (fun v hv => hrest v (by simp [hv])) hcur v h

theorem lcsNextRow_le (x : Char) (ys : List Char) (row : List Nat) (k : Nat)
    (h : ∀ v ∈ row, v ≤ k) : ∀ v ∈ lcsNextRow x ys row, v ≤ k + 1 := by
  cases row with
  | nil => intro v hv; simp [lcsNextRow] at hv
  | cons p0 rest =>
    intro v hv
    simp only [lcsNextRow] at hv
    rcases List.mem_cons.mp hv with h0 | h0
    · omega
    · exact lcsGo_le x k ys p0 rest 0 (h p0 (by simp))
        (fun v hv => h v (by simp [hv])) (by omega) v h0

theorem lcsRows_le_aux (ys : List Char) :
    ∀ (xs : List Char) (row : List Nat) (k : Nat), (∀ v ∈ row, v ≤ k) →
      ∀ v ∈ xs.foldl (fun r x => lcsNextRow x ys r) row, v ≤ k + xs.length := by
  intro xs
  induction xs with
  | nil => intro row k h v hv; simpa using h v hv
  | cons x xs ih =>
    intro row k h v hv
    simp only [List.foldl_cons] at hv
    have := ih (lcsNextRow x ys row) (k + 1) (lcsNextRow_le x ys row k h) v hv
    simpa [Nat.add_assoc, Nat.add_comm 1 xs.length] using this

theorem lcsRows_le (xs ys : List Char) : ∀ v ∈ lcsRows xs ys, v ≤ xs.length := by
  intro v hv
  have := lcsRows_le_aux ys xs (List.replicate (ys.length + 1) 0) 0
    (by intro v hv; simp [List.eq_of_mem_replicate hv]) v hv
  simpa using this

theorem lcsGo_col (x : Char) :
    ∀ (ys : List Char) (diag : Nat) (rest : List Nat) (left : Nat) (s : Nat),
      diag ≤ s → left ≤ s → (∀ i v, rest.get? i = some v → v ≤ s + 1 + i) →
      ∀ i v, (lcsGo x ys diag rest left).get? i = some v → v ≤ s + 1 + i := by
  intro ys
  induction ys with
  | nil => intro diag rest left s _ _ _ i v hv; simp [lcsGo] at hv
  | cons y ys ih =>
    intro diag rest left s hdiag hleft hrest i v hv
    cases rest with
    | nil => simp [lcsGo] at hv
    | cons up rest =>
      simp only [lcsGo] at hv
      have hup : up ≤ s + 1 := by
        have := hrest 0 up (by simp)
        omega
      cases i with
      | zero =>
        simp only [List.get?, Option.some.injEq] at hv
        have hcur : (if x == y then diag + 1 else max left up) ≤ s + 1 := by
          split
          · omega
          · omega
        omega
      | succ i =>
        simp only [List.get?] at hv
        have := ih up rest (if x == y then diag + 1 else max left up) (s + 1)
          hup (by split <;> omega)
          (fun j w hw => by
            have := hrest (j + 1) w (by simpa using hw)
            omega) i v hv
        omega

theorem lcsNextRow_col (x : Char) (ys : List Char) (row : List Nat)
    (h : ∀ i v, row.get? i = some v → v ≤ i) :
    ∀ i v, (lcsNextRow x ys row).get? i = some v → v ≤ i := by
  cases row with
  | nil => intro i v hv; simp [lcsNextRow] at hv
  | cons p0 rest =>
    intro i v hv
    simp only [lcsNextRow] at hv
    cases i with
    | zero => simp only [List.get?, Option.some.injEq] at hv; omega
    | succ i =>
      simp only [List.get?] at hv
      have := lcsGo_col x ys p0 rest 0 0
        (by have := h 0 p0 (by simp); omega) (by omega)
        (fun j w hw => by
          have := h (j + 1) w (by simpa using hw)
          omega) i v hv
      omega

theorem lcsGo_length (x : Char) :
    ∀ (ys : List Char) (diag : Nat) (rest : List Nat) (left : Nat),
      rest.length = ys.length → (lcsGo x ys diag rest left).length = ys.length := by
  intro ys
  induction ys with
  | nil => intro diag rest left h; cases rest <;> simp [lcsGo]
  | cons y ys ih =>
    intro diag rest left h
    cases rest with
    | nil => simp at h
    | cons up rest =>
      simp only [lcsGo, List.length_cons]
      rw [ih up rest _ (by simpa using h)]

theorem lcsRows_length (xs ys : List Char) :
    (lcsRows xs ys).length = ys.length + 1 := by
  unfold lcsRows
  suffices h : ∀ (l : List Char) (row : List Nat), row.length = ys.length + 1 →
      (l.foldl (fun r x => lcsNextRow x ys r) row).length = ys.length + 1 by
    exact h xs _ (by simp)
  intro l
  induction l with
  | nil => intro row h; simpa using h
  | cons x l ih =>
    intro row h
    simp only [List.foldl_cons]
    apply ih
    cases row with
    | nil => simp at h
    | cons p0 rest =>
      simp only [lcsNextRow, List.length_cons]
      rw [lcsGo_length x ys p0 rest 0 (by simpa using h)]

theorem get?_length_pred_getLastD :
    ∀ (l : List Nat) (d : Nat), l ≠ [] → l.get? (l.length - 1) = some (l.getLastD d) := by
  intro l
  induction l with
  | nil => intro d h; simp at h
  | cons a l ih =>
    intro d _
    cases l with
    | nil => simp [List.getLastD]
    | cons b t =>
      have h1 := ih a (by simp)
      simpa [List.getLastD_cons] using h1

theorem lcsLen_le_left (xs ys : List Char) : lcsLen xs ys ≤ xs.length := by
  unfold lcsLen
  have hne : lcsRows xs ys ≠ [] := by
    intro h
    have := lcsRows_length xs ys
    simp [h] at this
  have hget := get?_length_pred_getLastD (lcsRows xs ys) 0 hne
  have hmem : (lcsRows xs ys).getLastD 0 ∈ lcsRows xs ys := List.get?_mem hget
  exact lcsRows_le xs ys _ hmem

theorem lcsRows_col (xs ys : List Char) :
    ∀ i v, (lcsRows xs ys).get? i = some v → v ≤ i := by
  unfold lcsRows
  suffices h : ∀ (l : List Char) (row : List Nat),
      (∀ i v, row.get? i = some v → v ≤ i) →
      ∀ i v, (l.foldl (fun r x => lcsNextRow x ys r) row).get? i = some v → v ≤ i by
    refine h xs _ ?_
    intro i v hv
    have := List.get?_mem hv
    simp [List.eq_of_mem_replicate this]
  intro l
  induction l with
  | nil => intro row h; simpa using h
  | cons x l ih =>
    intro row h
    simp only [List.foldl_cons]
    exact ih _ (lcsNextRow_col x ys row h)

theorem lcsLen_le_right (xs ys : List Char) : lcsLen xs ys ≤ ys.length := by
  unfold lcsLen
  have hne : lcsRows xs ys ≠ [] := by
    intro h
    have := lcsRows_length xs ys
    simp [h] at this
  have hget := get?_length_pred_getLastD (lcsRows xs ys) 0 hne
  have := lcsRows_col xs ys ((lcsRows xs ys).length - 1) _ hget
  have hlen := lcsRows_length xs ys
  omega

theorem fuzzRatio_nonneg (a b : List Char) : 0 ≤ fuzzRatio a b := by
  unfold fuzzRatio
  split
  · norm_num
  · positivity

theorem fuzzRatio_le_100 (a b : List Char) : fuzzRatio a b ≤ 100 := by
  unfold fuzzRatio
  split
  · norm_num
  · rename_i h
    have hpos : (0 : ℚ) < (a.length : ℚ) + (b.length : ℚ) := by
      have : 0 < a.length + b.length := Nat.pos_of_ne_zero h
      exact_mod_cast this
    rw [div_le_iff₀ hpos]
    have h1 : lcsLen a b ≤ a.length := lcsLen_le_left a b
    have h2 : lcsLen a b ≤ b.length := lcsLen_le_right a b
    have : ((2 * lcsLen a b : Nat) : ℚ) ≤ (a.length : ℚ) + (b.length : ℚ) := by
      push_cast
      have : 2 * lcsLen a b ≤ a.length + b.length := by omega
      exact_mod_cast this
    push_cast at this
    nlinarith

theorem foldl_max_le (c : ℚ) :
    ∀ (qs : List ℚ) (acc : ℚ), acc ≤ c → (∀ q ∈ qs, q ≤ c) →
      qs.foldl max acc ≤ c := by
  intro qs
  induction qs with
  | nil => intro acc h _; simpa using h
  | cons q qs ih =>
    intro acc hacc hall
    simp only [List.foldl_cons]
    exact ih _ (max_le hacc (hall q (by simp))) (fun r hr => hall r (by simp [hr]))

theorem le_foldl_max :
    ∀ (qs : List ℚ) (acc : ℚ), acc ≤ qs.foldl max acc := by
  intro qs
  induction qs with
  | nil => intro acc; simp
  | cons q qs ih =>
    intro acc
    simp only [List.foldl_cons]
    exact le_trans (le_max_left acc q) (ih (max acc q))

theorem fuzzPartialRatio_nonneg (a b : List Char) : 0 ≤ fuzzPartialRatio a b := by
  unfold fuzzPartialRatio
  exact le_foldl_max _ 0

theorem fuzzPartialRatio_le_100 (a b : List Char) : fuzzPartialRatio a b ≤ 100 := by
  unfold fuzzPartialRatio
  apply foldl_max_le
  · norm_num
  · intro q hq
    rcases List.mem_map.mp hq with ⟨i, _, rfl⟩
    exact fuzzRatio_le_100 _ _

theorem fuzzTokenSortRatio_nonneg (a b : List Char) : 0 ≤ fuzzTokenSortRatio a b :=
  fuzzRatio_nonneg _ _

theorem fuzzTokenSortRatio_le_100 (a b : List Char) : fuzzTokenSortRatio a b ≤ 100 :=
  fuzzRatio_le_100 _ _

theorem matchScore_nonneg (sow : SOWTask) (entry : LOEEntry) :
    0 ≤ matchScore sow entry := by
  unfold matchScore
  exact le_trans (fuzzRatio_nonneg _ _) (le_trans (le_max_left _ _) (le_max_left _ _))

theorem matchScore_le_100 (sow : SOWTask) (entry : LOEEntry) :
    matchScore sow entry ≤ 100 := by
  unfold matchScore
  exact max_le (max_le (fuzzRatio_le_100 _ _) (fuzzPartialRatio_le_100 _ _))
    (fuzzTokenSortRatio_le_100 _ _)

/-! ## Characterization of the best-candidate scan

`findBestAux` either leaves the accumulator untouched (and then every
not-yet-consumed entry in the scanned region scores at most the accumulator)
or returns the first entry achieving the maximum score among the unconsumed
ones: strictly earlier unconsumed entries score strictly less, and all
unconsumed entries score at most the winner. -/

theorem findBestAux_spec (t : SOWTask) (used : List Nat) :
    ∀ (es : List LOEEntry) (idx : Nat) (b : ℚ × Option Nat),
    (findBestAux t used es idx b = b ∧
      ∀ o e, es.get? o = some e → ¬ (idx + o) ∈ used → matchScore t e ≤ b.1)
    ∨ (∃ o e, es.get? o = some e ∧ ¬ (idx + o) ∈ used ∧
        findBestAux t used es idx b = (matchScore t e, some (idx + o)) ∧
        b.1 < matchScore t e ∧
        (∀ o' e', o' < o → es.get? o' = some e' → ¬ (idx + o') ∈ used →
          matchScore t e' < matchScore t e) ∧
        (∀ o' e', es.get? o' = some e' → ¬ (idx + o') ∈ used →
          matchScore t e' ≤ matchScore t e)) := by
  intro es
  induction es with
  | nil =>
    intro idx b
    left
    refine ⟨rfl, ?_⟩
    intro o e h
    simp at h
  | cons e0 es ih =>
    intro idx b
    by_cases hu : idx ∈ used
    · have heqn : findBestAux t used (e0 :: es) idx b = findBestAux t used es (idx + 1) b := by
        simp [findBestAux, hu]
      rcases ih (idx + 1) b with ⟨heq, hbound⟩ | ⟨o, e, hget, hnu, heq, hlt, hstrict, hle⟩
      · left
        refine ⟨heqn.trans heq, ?_⟩
        intro o e hget hnu
        cases o with
        | zero => exact absurd hu (by simpa using hnu)
        | succ o =>
          refine hbound o e (by simpa using hget) ?_
          have harith : idx + 1 + o = idx + (o + 1) := by omega
          rw [harith]
          exact hnu
      · right
        refine ⟨o + 1, e, by simpa using hget, ?_, ?_, hlt, ?_, ?_⟩
        · have harith : idx + (o + 1) = idx + 1 + o := by omega
          rw [harith]
          exact hnu
        · have harith : idx + (o + 1) = idx + 1 + o := by omega
          rw [harith]
          exact heqn.trans heq
        · intro o' e' ho' hget' hnu'
          cases o' with
          | zero => exact absurd hu (by simpa using hnu')
          | succ o' =>
            refine hstrict o' e' (by omega) (by simpa using hget') ?_
            have harith : idx + 1 + o' = idx + (o' + 1) := by omega
            rw [harith]
            exact hnu'
        · intro o' e' hget' hnu'
          cases o' with
          | zero => exact absurd hu (by simpa using hnu')
          | succ o' =>
            refine hle o' e' (by simpa using hget') ?_
            have harith : idx + 1 + o' = idx + (o' + 1) := by omega
            rw [harith]
            exact hnu'
    · by_cases hb : b.1 < matchScore t e0
      · have heqn : findBestAux t used (e0 :: es) idx b =
            findBestAux t used es (idx + 1) (matchScore t e0, some idx) := by
          simp [findBestAux, hu, hb]
        rcases ih (idx + 1) (matchScore t e0, some idx) with
          ⟨heq, hbound⟩ | ⟨o, e, hget, hnu, heq, hlt, hstrict, hle⟩
        · right
          refine ⟨0, e0, by simp, by simpa using hu, ?_, hb, ?_, ?_⟩
          · rw [heqn, heq]
            simp
          · intro o' e' ho' _ _
            omega
          · intro o' e' hget' hnu'
            cases o' with
            | zero =>
              simp only [List.get?, Option.some.injEq] at hget'
              subst hget'
              exact le_refl _
            | succ o' =>
              refine hbound o' e' (by simpa using hget') ?_
              have harith : idx + 1 + o' = idx + (o' + 1) := by omega
              rw [harith]
              exact hnu'
        · right
          refine ⟨o + 1, e, by simpa using hget, ?_, ?_, lt_trans hb hlt, ?_, ?_⟩
          · have harith : idx + (o + 1) = idx + 1 + o := by omega
            rw [harith]
            exact hnu
          · have harith : idx + (o + 1) = idx + 1 + o := by omega
            rw [harith]
            exact heqn.trans heq
          · intro o' e' ho' hget' hnu'
            cases o' with
            | zero =>
              simp only [List.get?, Option.some.injEq] at hget'
              subst hget'
              exact hlt
            | succ o' =>
              refine hstrict o' e' (by omega) (by simpa using hget') ?_
              have harith : idx + 1 + o' = idx + (o' + 1) := by omega
              rw [harith]
              exact hnu'
          · intro o' e' hget' hnu'
            cases o' with
            | zero =>
              simp only [List.get?, Option.some.injEq] at hget'
              subst hget'
              exact le_of_lt hlt
            | succ o' =>
              refine hle o' e' (by simpa using hget') ?_
              have harith : idx + 1 + o' = idx + (o' + 1) := by omega
              rw [harith]
              exact hnu'
      · have heqn : findBestAux t used (e0 :: es) idx b = findBestAux t used es (idx + 1) b := by
          simp [findBestAux, hu, hb]
        have hs0 : matchScore t e0 ≤ b.1 := le_of_not_lt hb
        rcases ih (idx + 1) b with ⟨heq, hbound⟩ | ⟨o, e, hget, hnu, heq, hlt, hstrict, hle⟩
        · left
          refine ⟨heqn.trans heq, ?_⟩
          intro o e hget hnu
          cases o with
          | zero =>
            simp only [List.get?, Option.some.injEq] at hget
            subst hget
            exact hs0
          | succ o =>
            refine hbound o e (by simpa using hget) ?_
            have harith : idx + 1 + o = idx + (o + 1) := by omega
            rw [harith]
            exact hnu
        · right
          refine ⟨o + 1, e, by simpa using hget, ?_, ?_, hlt, ?_, ?_⟩
          · have harith : idx + (o + 1) = idx + 1 + o := by omega
            rw [harith]
            exact hnu
          · have harith : idx + (o + 1) = idx + 1 + o := by omega
            rw [harith]
            exact heqn.trans heq
          · intro o' e' ho' hget' hnu'
            cases o' with
            | zero =>
              simp only [List.get?, Option.some.injEq] at hget'
              subst hget'
              exact lt_of_le_of_lt hs0 hlt
            | succ o' =>
              refine hstrict o' e' (by omega) (by simpa using hget') ?_
              have harith : idx + 1 + o' = idx + (o' + 1) := by omega
              rw [harith]
              exact hnu'
          · intro o' e' hget' hnu'
            cases o' with
            | zero =>
              simp only [List.get?, Option.some.injEq] at hget'
              subst hget'
              exact le_trans hs0 (le_of_lt hlt)
            | succ o' =>
              refine hle o' e' (by simpa using hget') ?_
              have harith : idx + 1 + o' = idx + (o' + 1) := by omega
              rw [harith]
              exact hnu'

theorem findBest_spec (t : SOWTask) (es : List LOEEntry) (used : List Nat) :
    (findBest t es used = (0, none) ∧
      ∀ o e, es.get? o = some e → ¬ o ∈ used → matchScore t e ≤ 0)
    ∨ (∃ k e, es.get? k = some e ∧ ¬ k ∈ used ∧
        findBest t es used = (matchScore t e, some k) ∧
        0 < matchScore t e ∧
        (∀ j e', j < k → es.get? j = some e' → ¬ j ∈ used →
          matchScore t e' < matchScore t e) ∧
        (∀ j e', es.get? j = some e' → ¬ j ∈ used →
          matchScore t e' ≤ matchScore t e)) := by
  rcases findBestAux_spec t used es 0 (0, none) with ⟨heq, hbound⟩ |
    ⟨o, e, hget, hnu, heq, hlt, hstrict, hle⟩
  · left
    refine ⟨heq, ?_⟩
    intro o e hget hnu
    exact hbound o e hget (by simpa using hnu)
  · right
    refine ⟨o, e, hget, by simpa using hnu, by simpa using heq, by simpa using hlt, ?_, ?_⟩
    · intro j e' hj hget' hnu'
      exact hstrict j e' hj hget' (by simpa using hnu')
    · intro j e' hget' hnu'
      exact hle j e' hget' (by simpa using hnu')

theorem findBest_none_eq_zero (t : SOWTask) (es : List LOEEntry) (used : List Nat)
    (h : (findBest t es used).2 = none) : findBest t es used = (0, none) := by
  rcases findBest_spec t es used with ⟨heq, _⟩ | ⟨k, e, _, _, heq, _, _, _⟩
  · exact heq
  · rw [heq] at h
    simp at h

theorem findBest_some_spec (t : SOWTask) (es : List LOEEntry) (used : List Nat)
    (s : ℚ) (k : Nat) (h : findBest t es used = (s, some k)) :
    k < es.length ∧ ¬ k ∈ used ∧ 0 < s ∧
    (∃ e, es.get? k = some e ∧ s = matchScore t e) ∧
    (∀ j e', j < k → es.get? j = some e' → ¬ j ∈ used → matchScore t e' < s) ∧
    (∀ j e', es.get? j = some e' → ¬ j ∈ used → matchScore t e' ≤ s) := by
  rcases findBest_spec t es used with ⟨heq, _⟩ | ⟨k', e, hget, hnu, heq, hpos, hstrict, hle⟩
  · rw [heq] at h
    simp at h
  · rw [heq] at h
    have hk : k' = k := by
      have := congrArg Prod.snd h
      simpa using this
    have hs : matchScore t e = s := by
      have := congrArg Prod.fst h
      simpa using this
    rw [hk] at hget hnu hstrict
    have hklen : k < es.length := by
      rcases List.get?_eq_some.mp hget with ⟨hlt, _⟩
      exact hlt
    refine ⟨hklen, hnu, hs ▸ hpos, ⟨e, hget, hs.symm⟩, ?_, ?_⟩
    · intro j e' hj hget' hnu'
      exact hs ▸ hstrict j e' hj hget' hnu'
    · intro j e' hget' hnu'
      exact hs ▸ hle j e' hget' hnu'

theorem findBest_fst_nonneg (t : SOWTask) (es : List LOEEntry) (used : List Nat) :
    0 ≤ (findBest t es used).1 := by
  rcases findBest_spec t es used with ⟨heq, _⟩ | ⟨k, e, _, _, heq, hpos, _, _⟩
  · rw [heq]
  · rw [heq]
    exact le_of_lt hpos

theorem findBest_fst_le_100 (t : SOWTask) (es : List LOEEntry) (used : List Nat) :
    (findBest t es used).1 ≤ 100 := by
  rcases findBest_spec t es used with ⟨heq, _⟩ | ⟨k, e, _, _, heq, _, _, _⟩
  · rw [heq]
    norm_num
  · rw [heq]
    exact matchScore_le_100 t e

/-! ## Matcher invariants -/

/-- Every match produced by the matcher loop carries the schema defaults for
the analysis fields, has its score in `[0, 100]`, and is classified exactly
as the source thresholds dictate. -/
theorem matchTasksAux_mem (th : ℚ) (es : List LOEEntry) :
    ∀ (ts : List SOWTask) (used : List Nat) (m : TaskMatch),
      m ∈ (matchTasksAux th es ts used).1 →
      m.complexity_analysis = none ∧ m.duration_valid = true ∧
      m.duration_variance = none ∧ m.issues = [] ∧ m.warnings = [] ∧
      0 ≤ m.match_score ∧ m.match_score ≤ 100 ∧
      (m.match_status = MatchStatus.EXACT ↔ 95 ≤ m.match_score) ∧
      (m.match_status = MatchStatus.FUZZY → th ≤ m.match_score ∧ m.match_score < 95) ∧
      (m.match_status = MatchStatus.UNMATCHED →
        m.match_score = 0 ∧ m.loe_entry = none) ∧
      (0 < th → ¬ m.match_status = MatchStatus.UNMATCHED → ¬ m.match_score = 0) := by
  intro ts
  induction ts with
  | nil => intro used m hm; simp [matchTasksAux] at hm
  | cons t ts ih =>
    intro used m hm
    by_cases h95 : 95 ≤ (findBest t es used).1
    · rw [show matchTasksAux th es (t :: ts) used =
          (({ sow_task := t,
              loe_entry := (findBest t es used).2.bind (fun i => es.get? i),
              match_status := MatchStatus.EXACT,
              match_score := (findBest t es used).1 } : TaskMatch) ::
            (matchTasksAux th es ts
              ((findBest t es used).2.elim used (fun i => i :: used))).1,
           (matchTasksAux th es ts
              ((findBest t es used).2.elim used (fun i => i :: used))).2) by
          simp [matchTasksAux, h95]] at hm
      rcases List.mem_cons.mp hm with rfl | hmem
      · refine ⟨rfl, rfl, rfl, rfl, rfl, findBest_fst_nonneg t es used,
          findBest_fst_le_100 t es used, by simpa using h95, by simp, by simp, ?_⟩
        intro hth _
        simp only
        intro h0
        rw [h0] at h95
        norm_num at h95
      · exact ih _ m hmem
    · by_cases hth : th ≤ (findBest t es used).1
      · rw [show matchTasksAux th es (t :: ts) used =
            (({ sow_task := t,
                loe_entry := (findBest t es used).2.bind (fun i => es.get? i),
                match_status := MatchStatus.FUZZY,
                match_score := (findBest t es used).1 } : TaskMatch) ::
              (matchTasksAux th es ts
                ((findBest t es used).2.elim used (fun i => i :: used))).1,
             (matchTasksAux th es ts
                ((findBest t es used).2.elim used (fun i => i :: used))).2) by
            simp [matchTasksAux, h95, hth]] at hm
        rcases List.mem_cons.mp hm with rfl | hmem
        · refine ⟨rfl, rfl, rfl, rfl, rfl, findBest_fst_nonneg t es used,
            findBest_fst_le_100 t es used, by simpa using h95, by simpa using ⟨hth, lt_of_not_le h95⟩,
            by simp, ?_⟩
          intro hpos _
          simp only
          intro h0
          rw [h0] at hth
          exact absurd (lt_of_lt_of_le hpos hth) (lt_irrefl 0)
        · exact ih _ m hmem
      · rw [show matchTasksAux th es (t :: ts) used =
            (({ sow_task := t, loe_entry := none,
                match_status := MatchStatus.UNMATCHED,
                match_score := 0 } : TaskMatch) ::
              (matchTasksAux th es ts used).1,
             (matchTasksAux th es ts used).2) by
            simp [matchTasksAux, h95, hth]] at hm
        rcases List.mem_cons.mp hm with rfl | hmem
        · exact ⟨rfl, rfl, rfl, rfl, rfl, le_refl 0, by norm_num,
            by simp, by simp, by simp, by simp⟩
        · exact ih _ m hmem

/-- With an empty entry list the matcher classifies every SOW task as
unmatched (for any threshold above zero, in particular the service's 70). -/
theorem matchTasksAux_nil_entries (th : ℚ) (hth : 0 < th) :
    ∀ (ts : List SOWTask) (used : List Nat),
      matchTasksAux th [] ts used =
        (ts.map (fun t =>
          { sow_task := t, match_status := MatchStatus.UNMATCHED }), used) := by
  intro ts
  induction ts with
  | nil => intro used; simp [matchTasksAux]
  | cons t ts ih =>
    intro used
    have hfb : findBest t [] used = (0, none) := rfl
    have h95 : ¬ (95 : ℚ) ≤ (findBest t [] used).1 := by
      rw [hfb]
      norm_num
    have hth2 : ¬ th ≤ (findBest t [] used).1 := by
      rw [hfb]
      simpa using hth
    have h95z : ¬ (95 : ℚ) ≤ 0 := by norm_num
    have hthz : ¬ th ≤ 0 := not_le.mpr hth
    simp [matchTasksAux, hfb, h95z, hthz, ih]

/-- The consumed-index invariant of the matcher loop: the final consumed set
extends the initial one by a duplicate-free list of fresh in-range indices,
and the entries attached to the produced matches are exactly (up to
permutation) the entries at the newly consumed indices. -/
theorem matchTasksAux_consumed (th : ℚ) (es : List LOEEntry) :
    ∀ (ts : List SOWTask) (used : List Nat),
      ∃ new : List Nat,
        (matchTasksAux th es ts used).2 = new ++ used ∧
        new.Nodup ∧
        (∀ i ∈ new, i < es.length ∧ ¬ i ∈ used) ∧
        List.Perm
          ((matchTasksAux th es ts used).1.filterMap (fun m => m.loe_entry))
          (new.filterMap (fun i => es.get? i)) := by
  intro ts
  induction ts with
  | nil =>
    intro used
    exact ⟨[], by simp [matchTasksAux], by simp, by simp, by simp [matchTasksAux]⟩
  | cons t ts ih =>
    intro used
    by_cases hmatched : 95 ≤ (findBest t es used).1 ∨ th ≤ (findBest t es used).1
    · -- the task is matched (EXACT or FUZZY); both branches consume alike
      cases hsnd : (findBest t es used).2 with
      | none =>
        have hfb : findBest t es used = (0, none) := findBest_none_eq_zero t es used hsnd
        obtain ⟨new, hu, hnd, hmem, hperm⟩ := ih used
        refine ⟨new, ?_, hnd, hmem, ?_⟩
        · rcases hmatched with h | h
          · simpa [matchTasksAux, h, hsnd] using hu
          · by_cases h95 : 95 ≤ (findBest t es used).1
            · simpa [matchTasksAux, h95, hsnd] using hu
            · simpa [matchTasksAux, h95, h, hsnd] using hu
        · rcases hmatched with h | h
          · simpa [matchTasksAux, h, hsnd] using hperm
          · by_cases h95 : 95 ≤ (findBest t es used).1
            · simpa [matchTasksAux, h95, hsnd] using hperm
            · simpa [matchTasksAux, h95, h, hsnd] using hperm
      | some k =>
        obtain ⟨hk, hknu, hpos, ⟨e, hget, hse⟩, _, _⟩ :=
          findBest_some_spec t es used _ k (by rw [← hsnd])
        have hget2 : es[k]? = some e := by simpa using hget
        obtain ⟨new, hu, hnd, hmem, hperm⟩ := ih (k :: used)
        refine ⟨new ++ [k], ?_, ?_, ?_, ?_⟩
        · have : (matchTasksAux th es (t :: ts) used).2 =
              (matchTasksAux th es ts (k :: used)).2 := by
            rcases hmatched with h | h
            · simp [matchTasksAux, h, hsnd]
            · by_cases h95 : 95 ≤ (findBest t es used).1
              · simp [matchTasksAux, h95, hsnd]
              · simp [matchTasksAux, h95, h, hsnd]
          rw [this, hu]
          simp
        · have hknew : ¬ k ∈ new := by
            intro hkin
            exact (hmem k hkin).2 (by simp)
          simp [List.nodup_append, hnd, hknew]
        · intro i hi
          rcases List.mem_append.mp hi with hi | hi
          · have := hmem i hi
            refine ⟨this.1, ?_⟩
            intro hiu
            exact this.2 (by simp [hiu])
          · simp only [List.mem_singleton] at hi
            subst hi
            exact ⟨hk, hknu⟩
        · have hmatches : (matchTasksAux th es (t :: ts) used).1.filterMap
              (fun m => m.loe_entry) =
              e :: ((matchTasksAux th es ts (k :: used)).1.filterMap
                (fun m => m.loe_entry)) := by
            rcases hmatched with h | h
            · simp [matchTasksAux, h, hsnd, List.filterMap_cons, hget2]
            · by_cases h95 : 95 ≤ (findBest t es used).1
              · simp [matchTasksAux, h95, hsnd, List.filterMap_cons, hget2]
              · simp [matchTasksAux, h95, h, hsnd, List.filterMap_cons, hget2]
          rw [hmatches]
          have h1 : List.Perm (e :: ((matchTasksAux th es ts (k :: used)).1.filterMap
              (fun m => m.loe_entry)))
              (e :: (new.filterMap (fun i => es.get? i))) := hperm.cons e
          have h2 : (new ++ [k]).filterMap (fun i => es.get? i) =
              new.filterMap (fun i => es.get? i) ++ [e] := by
            rw [List.filterMap_append]
            simp [hget2]
          rw [h2]
          exact h1.trans (List.perm_append_singleton e _).symm
    · -- unmatched: nothing is consumed and no entry attached
      push_neg at hmatched
      obtain ⟨h95, hth2⟩ := hmatched
      have h95n : ¬ (95 : ℚ) ≤ (findBest t es used).1 := not_le.mpr h95
      have hthn : ¬ th ≤ (findBest t es used).1 := not_le.mpr hth2
      obtain ⟨new, hu, hnd, hmem, hperm⟩ := ih used
      refine ⟨new, ?_, hnd, hmem, ?_⟩
      · simpa [matchTasksAux, h95n, hthn] using hu
      · have : (matchTasksAux th es (t :: ts) used).1.filterMap
            (fun m => m.loe_entry) =
            (matchTasksAux th es ts used).1.filterMap (fun m => m.loe_entry) := by
          simp [matchTasksAux, h95n, hthn, List.filterMap_cons]
        rw [this]
        exact hperm

/-! ## Complexity analyzer structure -/

theorem analyzeComplexity_factors_eq (svc : ValidatorService) (description task_name : String) :
    (svc.analyzeComplexity description task_name).complexity_factors =
      svc.complexity_keywords.categories.filterMap (fun c =>
        (c.2.keywords.find?
          (fun kw => containsSub (lowerChars (task_name ++ " " ++ description)) kw.1.data)).map
          (fun kw => ComplexityFactor.mk kw.1 c.1 kw.2)) := rfl

theorem analyzeComplexity_base_days_eq (svc : ValidatorService) (description task_name : String) :
    (svc.analyzeComplexity description task_name).base_days =
      ((svc.complexity_keywords.task_type_base_days.find?
        (fun p => containsSub (lowerChars (task_name ++ " " ++ description)) p.1.data)).map
        (fun p => p.2)).getD 1.5 := rfl

theorem analyzeComplexity_total_multiplier_eq (svc : ValidatorService)
    (description task_name : String) :
    (svc.analyzeComplexity description task_name).total_multiplier =
      (if (svc.analyzeComplexity description task_name).complexity_factors.isEmpty then 1.0
       else (svc.analyzeComplexity description task_name).complexity_factors.foldl
         (fun acc f => acc * f.multiplier) 1.0) := rfl

theorem analyzeComplexity_expected_min_eq (svc : ValidatorService)
    (description task_name : String) :
    (svc.analyzeComplexity description task_name).expected_days_min =
      (svc.analyzeComplexity description task_name).base_days *
        (svc.analyzeComplexity description task_name).total_multiplier * 0.8 := rfl

theorem analyzeComplexity_expected_max_eq (svc : ValidatorService)
    (description task_name : String) :
    (svc.analyzeComplexity description task_name).expected_days_max =
      (svc.analyzeComplexity description task_name).base_days *
        (svc.analyzeComplexity description task_name).total_multiplier * 1.5 := rfl

theorem foldl_mul_eq_prod :
    ∀ (l : List ComplexityFactor) (acc : ℚ),
      l.foldl (fun acc f => acc * f.multiplier) acc =
        acc * (l.map (fun f => f.multiplier)).prod := by
  intro l
  induction l with
  | nil => intro acc; simp
  | cons f l ih =>
    intro acc
    simp only [List.foldl_cons, List.map_cons, List.prod_cons]
    rw [ih]
    ring

/-- The analyzer's conditional fold equals the plain product of the returned
multipliers (the empty product being 1). -/
theorem analyzeComplexity_total_multiplier_prod (svc : ValidatorService)
    (description task_name : String) :
    (svc.analyzeComplexity description task_name).total_multiplier =
      ((svc.analyzeComplexity description task_name).complexity_factors.map
        (fun f => f.multiplier)).prod := by
  rw [analyzeComplexity_total_multiplier_eq]
  by_cases h : (svc.analyzeComplexity description task_name).complexity_factors.isEmpty
  · rw [if_pos h, List.isEmpty_iff.mp h]
    norm_num
  · rw [if_neg h, foldl_mul_eq_prod]
    norm_num

/-- Every returned factor is built from some keyword of some configured
category. -/
theorem analyzeComplexity_factor_mem (svc : ValidatorService)
    (description task_name : String) :
    ∀ f ∈ (svc.analyzeComplexity description task_name).complexity_factors,
      ∃ c ∈ svc.complexity_keywords.categories, ∃ kw ∈ c.2.keywords,
        f = ComplexityFactor.mk kw.1 c.1 kw.2 := by
  intro f hf
  rw [analyzeComplexity_factors_eq] at hf
  rcases List.mem_filterMap.mp hf with ⟨c, hc, hmap⟩
  rcases Option.map_eq_some'.mp hmap with ⟨kw, hfind, rfl⟩
  exact ⟨c, hc, kw, List.mem_of_find?_eq_some hfind, rfl⟩

theorem default_base_days_pos :
    ∀ p ∈ DEFAULT_COMPLEXITY_KEYWORDS.task_type_base_days, 0 < p.2 := by
  with_unfolding_all decide

theorem default_multiplier_pos :
    ∀ c ∈ DEFAULT_COMPLEXITY_KEYWORDS.categories, ∀ kw ∈ c.2.keywords, 0 < kw.2 := by
  with_unfolding_all decide

theorem default_categories_nodup :
    (DEFAULT_COMPLEXITY_KEYWORDS.categories.map (fun c => c.1)).Nodup := by
  with_unfolding_all decide

/-- With the default configuration, base days, total multiplier and the
expected range bounds of every analysis are strictly positive. -/
theorem analyzeComplexity_pos (description task_name : String) :
    0 < (defaultService.analyzeComplexity description task_name).base_days ∧
    0 < (defaultService.analyzeComplexity description task_name).total_multiplier ∧
    0 < (defaultService.analyzeComplexity description task_name).expected_days_min ∧
    0 < (defaultService.analyzeComplexity description task_name).expected_days_max := by
  have hbase : 0 < (defaultService.analyzeComplexity description task_name).base_days := by
    rw [analyzeComplexity_base_days_eq]
    rcases hfind : (defaultService.complexity_keywords.task_type_base_days.find?
        (fun p => containsSub (lowerChars (task_name ++ " " ++ description)) p.1.data)) with
      _ | p
    · simp only [hfind, Option.map_none', Option.getD_none]
      norm_num
    · simp only [hfind, Option.map_some', Option.getD_some]
      exact default_base_days_pos p (List.mem_of_find?_eq_some hfind)
  have hmul : 0 < (defaultService.analyzeComplexity description task_name).total_multiplier := by
    rw [analyzeComplexity_total_multiplier_prod]
    apply List.prod_pos
    intro x hx
    rcases List.mem_map.mp hx with ⟨f, hf, rfl⟩
    rcases analyzeComplexity_factor_mem defaultService description task_name f hf with
      ⟨c, hc, kw, hkw, rfl⟩
    exact default_multiplier_pos c hc kw hkw
  refine ⟨hbase, hmul, ?_, ?_⟩
  · rw [analyzeComplexity_expected_min_eq]
    have : (0.8 : ℚ) > 0 := by norm_num
    positivity
  · rw [analyzeComplexity_expected_max_eq]
    have : (1.5 : ℚ) > 0 := by norm_num
    positivity

/-- For every configured category, the factors returned for that category are
exactly the image of the first keyword of the category found in the text
(assuming pairwise-distinct category names, as in the default config). -/
theorem filterMap_factor_filter (text : List Char) :
    ∀ (cats : List (String × CategoryData)),
      (cats.map (fun c => c.1)).Nodup →
      ∀ p ∈ cats,
        ((cats.filterMap (fun c =>
          (c.2.keywords.find? (fun kw => containsSub text kw.1.data)).map
            (fun kw => ComplexityFactor.mk kw.1 c.1 kw.2))).filter
            (fun f => decide (f.category = p.1))) =
        ((p.2.keywords.find? (fun kw => containsSub text kw.1.data)).map
          (fun kw => ComplexityFactor.mk kw.1 p.1 kw.2)).toList := by
  intro cats
  induction cats with
  | nil => intro _ p hp; simp at hp
  | cons q qs ih =>
    intro hnd p hp
    have hnd2 : (qs.map (fun c => c.1)).Nodup := (List.nodup_cons.mp hnd).2
    have hq1 : ¬ q.1 ∈ qs.map (fun c => c.1) := (List.nodup_cons.mp hnd).1
    have hmemcat : ∀ f ∈ qs.filterMap (fun c =>
        (c.2.keywords.find? (fun kw => containsSub text kw.1.data)).map
          (fun kw => ComplexityFactor.mk kw.1 c.1 kw.2)),
        f.category ∈ qs.map (fun c => c.1) := by
      intro f hf
      rcases List.mem_filterMap.mp hf with ⟨c, hc, hmap⟩
      rcases Option.map_eq_some'.mp hmap with ⟨kw, _, rfl⟩
      exact List.mem_map.mpr ⟨c, hc, rfl⟩
    rcases List.mem_cons.mp hp with rfl | hp2
    · -- p is the head category: keep its contribution, drop all others
      have hrest : (qs.filterMap (fun c =>
          (c.2.keywords.find? (fun kw => containsSub text kw.1.data)).map
            (fun kw => ComplexityFactor.mk kw.1 c.1 kw.2))).filter
            (fun f => decide (f.category = p.1)) = [] := by
        apply List.filter_eq_nil_iff.mpr
        intro f hf
        simp only [decide_eq_true_eq]
        intro hcat
        exact hq1 (hcat ▸ hmemcat f hf)
      rcases hfind : p.2.keywords.find? (fun kw => containsSub text kw.1.data) with _ | kw
      · simp only [List.filterMap_cons, hfind, Option.map_none']
        rw [hrest]
        simp
      · simp only [List.filterMap_cons, hfind, Option.map_some']
        rw [List.filter_cons_of_pos (by simp)]
        rw [hrest]
        simp
    · -- p is further down: the head contribution has a different category
      have hne : ¬ q.1 = p.1 := by
        intro hcontra
        exact hq1 (hcontra ▸ List.mem_map.mpr ⟨p, hp2, rfl⟩)
      rcases hfind : q.2.keywords.find? (fun kw => containsSub text kw.1.data) with _ | kw
      · simp only [List.filterMap_cons, hfind, Option.map_none']
        exact ih hnd2 p hp2
      · simp only [List.filterMap_cons, hfind, Option.map_some']
        rw [List.filter_cons_of_neg (by simpa using hne)]
        exact ih hnd2 p hp2

/-! ## Duration validation structure -/

/-- `enrichMatch` is a no-op for matches without an entry. -/
theorem enrichMatch_none (svc : ValidatorService) (m : TaskMatch)
    (h : m.loe_entry = none) : svc.enrichMatch m = m := by
  rcases hm : m.loe_entry with _ | entry
  · simp [ValidatorService.enrichMatch, hm]
  · rw [h] at hm
    simp at hm

/-- `enrichMatch` never changes the matcher-assigned fields. -/
theorem enrichMatch_preserves (svc : ValidatorService) (m : TaskMatch) :
    (svc.enrichMatch m).loe_entry = m.loe_entry ∧
    (svc.enrichMatch m).match_status = m.match_status ∧
    (svc.enrichMatch m).match_score = m.match_score ∧
    (svc.enrichMatch m).sow_task = m.sow_task := by
  rcases h : m.loe_entry with _ | entry
  · simp [ValidatorService.enrichMatch, h]
  · simp only [ValidatorService.enrichMatch, h]
    split
    · split
      · simp [h]
      · split
        · simp [h]
        · simp [h]
    · simp [h]

/-- Full branch analysis of `enrichMatch` on a match holding an entry, under
the (always satisfied for the default configuration) positive-midpoint guard:
the complexity analysis is attached, the variance recorded, and exactly one
of the three duration branches fires. -/
theorem enrichMatch_spec (svc : ValidatorService) (m : TaskMatch) (entry : LOEEntry)
    (h : m.loe_entry = some entry)
    (hmid : 0 < ((svc.analyzeComplexity m.sow_task.description m.sow_task.task).expected_days_min +
      (svc.analyzeComplexity m.sow_task.description m.sow_task.task).expected_days_max) / 2) :
    (svc.enrichMatch m).complexity_analysis =
      some (svc.analyzeComplexity m.sow_task.description m.sow_task.task) ∧
    (pyOr entry.total_days entry.days <
        (svc.analyzeComplexity m.sow_task.description m.sow_task.task).expected_days_min * 0.5 →
      (svc.enrichMatch m).duration_valid = false ∧
      (svc.enrichMatch m).issues = m.issues ++
        ["Duration significantly under-estimated: days vs expected days"] ∧
      (svc.enrichMatch m).warnings = m.warnings) ∧
    (¬ pyOr entry.total_days entry.days <
        (svc.analyzeComplexity m.sow_task.description m.sow_task.task).expected_days_min * 0.5 →
      (svc.analyzeComplexity m.sow_task.description m.sow_task.task).expected_days_max * 1.5 <
        pyOr entry.total_days entry.days →
      (svc.enrichMatch m).duration_valid = false ∧
      (svc.enrichMatch m).warnings = m.warnings ++
        ["Duration may be over-estimated: days vs expected days"] ∧
      (svc.enrichMatch m).issues = m.issues) ∧
    (¬ pyOr entry.total_days entry.days <
        (svc.analyzeComplexity m.sow_task.description m.sow_task.task).expected_days_min * 0.5 →
      ¬ (svc.analyzeComplexity m.sow_task.description m.sow_task.task).expected_days_max * 1.5 <
        pyOr entry.total_days entry.days →
      (svc.enrichMatch m).duration_valid = m.duration_valid ∧
      (svc.enrichMatch m).issues = m.issues ∧
      (svc.enrichMatch m).warnings = m.warnings) := by
  simp only [ValidatorService.enrichMatch, h]
  rw [if_pos hmid]
  by_cases hunder : pyOr entry.total_days entry.days <
      (svc.analyzeComplexity m.sow_task.description m.sow_task.task).expected_days_min * 0.5
  · rw [if_pos hunder]
    refine ⟨by simp, fun _ => ⟨by simp, by simp, by simp⟩, ?_, ?_⟩
    · intro hc _
      exact absurd hunder hc
    · intro hc _
      exact absurd hunder hc
  · rw [if_neg hunder]
    by_cases hover : (svc.analyzeComplexity m.sow_task.description
        m.sow_task.task).expected_days_max * 1.5 < pyOr entry.total_days entry.days
    · rw [if_pos hover]
      refine ⟨by simp, fun hc => absurd hc hunder, fun _ _ => ⟨by simp, by simp, by simp⟩, ?_⟩
      intro _ hc
      exact absurd hover hc
    · rw [if_neg hover]
      exact ⟨by simp, fun hc => absurd hc hunder, fun _ hc => absurd hc hover,
        fun _ _ => ⟨by simp, by simp, by simp⟩⟩

/-! ## Projections of `validate` -/

theorem validate_task_matches (svc : ValidatorService) (ts : List SOWTask)
    (es : List LOEEntry) (c p : String) :
    (svc.validate ts es c p).task_matches =
      (svc.matchTasks ts es).1.map svc.enrichMatch := rfl

theorem validate_orphaned_entries (svc : ValidatorService) (ts : List SOWTask)
    (es : List LOEEntry) (c p : String) :
    (svc.validate ts es c p).orphaned_entries = (svc.matchTasks ts es).2 := rfl

theorem validate_unmatched_eq (svc : ValidatorService) (ts : List SOWTask)
    (es : List LOEEntry) (c p : String) :
    (svc.validate ts es c p).unmatched_sow_tasks =
      (svc.validate ts es c p).task_matches.countP
        (fun m => decide (m.match_status = MatchStatus.UNMATCHED)) := rfl

theorem validate_critical_issues_eq (svc : ValidatorService) (ts : List SOWTask)
    (es : List LOEEntry) (c p : String) :
    (svc.validate ts es c p).critical_issues =
      (if 0 < (svc.validate ts es c p).unmatched_sow_tasks then
        ["SOW task(s) have no matching LOE entry. These tasks may be missing effort estimates."]
       else []) := rfl

theorem validate_warnings_eq (svc : ValidatorService) (ts : List SOWTask)
    (es : List LOEEntry) (c p : String) :
    (svc.validate ts es c p).warnings =
      (if ¬ (svc.validate ts es c p).orphaned_entries.isEmpty then
        ["LOE entries have no matching SOW task. Review if these are overhead or out-of-scope items."]
       else []) ++
      (if 0 < (svc.validate ts es c p).task_matches.countP
          (fun m => decide (m.duration_valid = false)) then
        ["task(s) have duration concerns. Review the Duration Analysis section."]
       else []) := rfl

theorem validate_status_eq (svc : ValidatorService) (ts : List SOWTask)
    (es : List LOEEntry) (c p : String) :
    (svc.validate ts es c p).status =
      (if ¬ (svc.validate ts es c p).critical_issues.isEmpty then ValidationStatus.FAIL
       else if ¬ (svc.validate ts es c p).warnings.isEmpty then ValidationStatus.WARNING
       else ValidationStatus.PASS) := rfl

theorem validate_total_loe_days_eq (svc : ValidatorService) (ts : List SOWTask)
    (es : List LOEEntry) (c p : String) :
    (svc.validate ts es c p).total_loe_days =
      (((svc.validate ts es c p).task_matches.filterMap (fun m => m.loe_entry)).map
        (fun e => pyOr e.total_days e.days)).sum +
      ((svc.validate ts es c p).orphaned_entries.map
        (fun e => pyOr e.total_days e.days)).sum := rfl

theorem validate_total_loe_entries_eq (svc : ValidatorService) (ts : List SOWTask)
    (es : List LOEEntry) (c p : String) :
    (svc.validate ts es c p).total_loe_entries = es.length := rfl

/-! ## Claim theorems -/

/-- Claim C3: for every input, the overall status obeys strict dominance:
`critical_issues` is non-empty exactly when `unmatched_sow_tasks > 0`, and
then the status is FAIL; otherwise the status is WARNING exactly when there
are orphaned entries or some task match has `duration_valid = false`;
otherwise it is PASS. -/
theorem claim_c3_status_dominance (ts : List SOWTask) (es : List LOEEntry)
    (c p : String) :
    (¬ (defaultService.validate ts es c p).critical_issues.isEmpty ↔
      0 < (defaultService.validate ts es c p).unmatched_sow_tasks) ∧
    (defaultService.validate ts es c p).status =
      (if 0 < (defaultService.validate ts es c p).unmatched_sow_tasks then
        ValidationStatus.FAIL
       else if ¬ (defaultService.validate ts es c p).orphaned_entries.isEmpty ∨
           ∃ m ∈ (defaultService.validate ts es c p).task_matches,
             m.duration_valid = false then
        ValidationStatus.WARNING
       else ValidationStatus.PASS) := by
  have hcrit := validate_critical_issues_eq defaultService ts es c p
  have hwarn := validate_warnings_eq defaultService ts es c p
  have hstat := validate_status_eq defaultService ts es c p
  by_cases hu : 0 < (defaultService.validate ts es c p).unmatched_sow_tasks
  · rw [if_pos hu] at hcrit
    constructor
    · simp [hcrit, hu]
    · rw [hstat, hcrit]
      simp [hu]
  · rw [if_neg hu] at hcrit
    constructor
    · simp [hcrit, hu]
    · rw [hstat, hcrit]
      simp only [List.isEmpty_nil, not_true_eq_false, if_false, if_neg hu]
      have hdur : (0 < (defaultService.validate ts es c p).task_matches.countP
          (fun m => decide (m.duration_valid = false))) ↔
          ∃ m ∈ (defaultService.validate ts es c p).task_matches,
            m.duration_valid = false := by
        rw [List.countP_pos_iff]
        simp
      rw [hwarn]
      by_cases ho : (defaultService.validate ts es c p).orphaned_entries.isEmpty
      · by_cases hd : ∃ m ∈ (defaultService.validate ts es c p).task_matches,
            m.duration_valid = false
        · simp [ho, hdur.mpr hd, hd]
        · have hcnt : ¬ 0 < (defaultService.validate ts es c p).task_matches.countP
              (fun m => decide (m.duration_valid = false)) := by
            intro hpos
            exact hd (hdur.mp hpos)
          simp [ho, hd, hcnt]
      · simp [ho]

/-- Claim C9: the core validation function is total on well-typed input
(it is a total Lean function by construction) and on the boundary inputs it
resolves by value-level defaults: an empty scope list yields an empty match
list, and an empty entry list yields one unmatched, entry-less match per
scope item and no orphans. -/
theorem claim_c9_totality (ts : List SOWTask) (es : List LOEEntry) (c p : String) :
    (defaultService.validate [] es c p).task_matches = [] ∧
    (defaultService.validate ts [] c p).task_matches.length = ts.length ∧
    (defaultService.validate ts [] c p).orphaned_entries = [] ∧
    (defaultService.validate ts [] c p).task_matches.countP
      (fun m => decide (m.match_status = MatchStatus.UNMATCHED ∧
        m.loe_entry = none)) = ts.length := by
  have hnil := matchTasksAux_nil_entries (defaultService.match_threshold)
    (by show (0 : ℚ) < 70; norm_num) ts []
  have htm : (defaultService.validate ts [] c p).task_matches =
      ts.map (fun t =>
        defaultService.enrichMatch { sow_task := t, match_status := MatchStatus.UNMATCHED }) := by
    rw [validate_task_matches, ValidatorService.matchTasks]
    simp only [hnil, List.map_map]
    rfl
  have henr : ∀ t : SOWTask,
      defaultService.enrichMatch { sow_task := t, match_status := MatchStatus.UNMATCHED } =
        { sow_task := t, match_status := MatchStatus.UNMATCHED } := by
    intro t
    exact enrichMatch_none defaultService _ rfl
  refine ⟨?_, ?_, ?_, ?_⟩
  · rw [validate_task_matches, ValidatorService.matchTasks]
    simp [matchTasksAux]
  · rw [htm]
    simp
  · rw [validate_orphaned_entries, ValidatorService.matchTasks]
    simp
  · rw [htm, List.countP_map]
    refine List.countP_eq_length.mpr ?_
    intro t _
    simp [Function.comp, henr t]

theorem range_filterMap_get? :
    ∀ (es : List LOEEntry),
      (List.range es.length).filterMap (fun i => es.get? i) = es := by
  intro es
  induction es with
  | nil => simp
  | cons e tail ih =>
    rw [List.length_cons, List.range_succ_eq_map]
    rw [List.filterMap_cons]
    simp only [List.get?]
    rw [List.filterMap_map]
    have hfun : ((fun i => (e :: tail).get? i) ∘ Nat.succ) = (fun i => tail.get? i) := rfl
    rw [hfun, ih]

/-- Claim C1: after a validation run, the entries attached to task matches
together with the orphaned entries form a permutation of the input entry
list — every entry is attached to at most one match or orphaned exactly
once, never both and never neither — and in particular the counts add up. -/
theorem claim_c1_entry_partition (ts : List SOWTask) (es : List LOEEntry)
    (c p : String) :
    List.Perm
      (((defaultService.validate ts es c p).task_matches.filterMap
          (fun m => m.loe_entry)) ++
        (defaultService.validate ts es c p).orphaned_entries) es ∧
    ((defaultService.validate ts es c p).task_matches.filterMap
        (fun m => m.loe_entry)).length +
      (defaultService.validate ts es c p).orphaned_entries.length = es.length := by
  have hattached : (defaultService.validate ts es c p).task_matches.filterMap
      (fun m => m.loe_entry) =
      (matchTasksAux defaultService.match_threshold es ts []).1.filterMap
        (fun m => m.loe_entry) := by
    rw [validate_task_matches, List.filterMap_map]
    congr 1
    funext m
    exact (enrichMatch_preserves defaultService m).1
  obtain ⟨new, hu, hnd, hmem, hperm⟩ :=
    matchTasksAux_consumed defaultService.match_threshold es ts []
  rw [List.append_nil] at hu
  have horph : (defaultService.validate ts es c p).orphaned_entries =
      ((List.range es.length).filter (fun idx => ¬ idx ∈ new)).filterMap
        (fun idx => es.get? idx) := by
    rw [validate_orphaned_entries, ValidatorService.matchTasks]
    simp only [hu]
  have hnewperm : List.Perm new
      ((List.range es.length).filter (fun i => i ∈ new)) := by
    refine (List.perm_ext_iff_of_nodup hnd
      (List.Nodup.filter _ (List.nodup_range es.length))).mpr ?_
    intro a
    simp only [List.mem_filter, List.mem_range, decide_eq_true_eq]
    constructor
    · intro ha
      exact ⟨(hmem a ha).1, ha⟩
    · intro ha
      exact ha.2
  have hperm2 : List.Perm
      ((matchTasksAux defaultService.match_threshold es ts []).1.filterMap
        (fun m => m.loe_entry))
      (((List.range es.length).filter (fun i => i ∈ new)).filterMap
        (fun i => es.get? i)) :=
    hperm.trans (hnewperm.filterMap _)
  have hpred : (fun idx => decide (¬ idx ∈ new)) =
      (fun idx => ! decide (idx ∈ new)) := by
    funext idx
    simp [decide_not]
  have hmain : List.Perm
      (((defaultService.validate ts es c p).task_matches.filterMap
          (fun m => m.loe_entry)) ++
        (defaultService.validate ts es c p).orphaned_entries) es := by
    rw [hattached, horph]
    refine (hperm2.append (List.Perm.refl _)).trans ?_
    rw [← List.filterMap_append]
    have hfilters : ((List.range es.length).filter (fun i => i ∈ new) ++
        (List.range es.length).filter (fun idx => ¬ idx ∈ new)) =
        ((List.range es.length).filter (fun i => i ∈ new) ++
        (List.range es.length).filter (fun idx => ! decide (idx ∈ new))) := by
      rw [show (fun idx => decide (¬ idx ∈ new)) =
        (fun idx => ! decide (idx ∈ new)) from hpred]
    refine (List.Perm.filterMap _ ?_).trans
      (by rw [range_filterMap_get?] : List.Perm
        ((List.range es.length).filterMap (fun i => es.get? i)) es)
    rw [hfilters]
    exact List.filter_append_perm _ _
  refine ⟨hmain, ?_⟩
  have := hmain.length_eq
  rw [List.length_append] at this
  exact this

/-- Claim C7: for every analysis returned by the analyzer (with the default
configuration): at most one factor per category, and for each configured
category the factors for it are exactly the image of the first keyword of
that category found as a substring in declared order; the total multiplier is
the product of the returned multipliers (1 when the list is empty); the
expected range is `base_days * total_multiplier * 0.8` to
`base_days * total_multiplier * 1.5`; and the minimum never exceeds the
maximum. -/
theorem claim_c7_analysis_algebra (description task_name : String) :
    (∀ cat : String,
      ((defaultService.analyzeComplexity description task_name).complexity_factors.filter
        (fun f => decide (f.category = cat))).length ≤ 1) ∧
    (∀ p ∈ DEFAULT_COMPLEXITY_KEYWORDS.categories,
      (defaultService.analyzeComplexity description task_name).complexity_factors.filter
        (fun f => decide (f.category = p.1)) =
      ((p.2.keywords.find? (fun kw =>
        containsSub (lowerChars (task_name ++ " " ++ description)) kw.1.data)).map
        (fun kw => ComplexityFactor.mk kw.1 p.1 kw.2)).toList) ∧
    (defaultService.analyzeComplexity description task_name).total_multiplier =
      ((defaultService.analyzeComplexity description task_name).complexity_factors.map
        (fun f => f.multiplier)).prod ∧
    (defaultService.analyzeComplexity description task_name).expected_days_min =
      (defaultService.analyzeComplexity description task_name).base_days *
        (defaultService.analyzeComplexity description task_name).total_multiplier * 0.8 ∧
    (defaultService.analyzeComplexity description task_name).expected_days_max =
      (defaultService.analyzeComplexity description task_name).base_days *
        (defaultService.analyzeComplexity description task_name).total_multiplier * 1.5 ∧
    (defaultService.analyzeComplexity description task_name).expected_days_min ≤
      (defaultService.analyzeComplexity description task_name).expected_days_max := by
  have hfilter : ∀ p ∈ DEFAULT_COMPLEXITY_KEYWORDS.categories,
      (defaultService.analyzeComplexity description task_name).complexity_factors.filter
        (fun f => decide (f.category = p.1)) =
      ((p.2.keywords.find? (fun kw =>
        containsSub (lowerChars (task_name ++ " " ++ description)) kw.1.data)).map
        (fun kw => ComplexityFactor.mk kw.1 p.1 kw.2)).toList := by
    intro p hp
    rw [analyzeComplexity_factors_eq]
    exact filterMap_factor_filter (lowerChars (task_name ++ " " ++ description))
      DEFAULT_COMPLEXITY_KEYWORDS.categories default_categories_nodup p hp
  refine ⟨?_, hfilter, analyzeComplexity_total_multiplier_prod _ _ _,
    analyzeComplexity_expected_min_eq _ _ _, analyzeComplexity_expected_max_eq _ _ _, ?_⟩
  · intro cat
    by_cases hc : cat ∈ DEFAULT_COMPLEXITY_KEYWORDS.categories.map (fun c => c.1)
    · rcases List.mem_map.mp hc with ⟨p, hp, rfl⟩
      rw [hfilter p hp]
      cases hfind : p.2.keywords.find? (fun kw =>
          containsSub (lowerChars (task_name ++ " " ++ description)) kw.1.data) <;>
        simp [hfind]
    · have : (defaultService.analyzeComplexity description task_name).complexity_factors.filter
          (fun f => decide (f.category = cat)) = [] := by
        refine List.filter_eq_nil_iff.mpr ?_
        intro f hf
        simp only [decide_eq_true_eq]
        intro hcat
        rcases analyzeComplexity_factor_mem defaultService description task_name f hf with
          ⟨cData, hcData, kw, _, rfl⟩
        exact hc (hcat ▸ List.mem_map.mpr ⟨cData, hcData, rfl⟩)
      rw [this]
      norm_num
  · obtain ⟨hb, hm, _, _⟩ := analyzeComplexity_pos description task_name
    rw [analyzeComplexity_expected_min_eq, analyzeComplexity_expected_max_eq]
    have hbm : 0 < (defaultService.analyzeComplexity description task_name).base_days *
        (defaultService.analyzeComplexity description task_name).total_multiplier :=
      mul_pos hb hm
    nlinarith

/-- Witness for C7 at a concrete input: the architecture-category factor list
of a concrete analysis has at most one element. -/
theorem claim_c7_witness :
    (((defaultService.analyzeComplexity "with high availability" "Install").complexity_factors.filter
      (fun f => decide (f.category = "architecture"))).length ≤ 1) :=
  (claim_c7_analysis_algebra "with high availability" "Install").1 "architecture"

/-- Claim C8: every produced task match has a score in `[0, 100]`; its status
is `EXACT` exactly when the score is at least 95; it is `UNMATCHED` exactly
when the score is 0 and no entry is attached (tentative candidates below the
service threshold of 70 are discarded with their score forced to 0); and a
`FUZZY` match scores at least the threshold and below 95. -/
theorem claim_c8_score_bounds (ts : List SOWTask) (es : List LOEEntry)
    (c p : String) :
    ∀ m ∈ (defaultService.validate ts es c p).task_matches,
      (0 ≤ m.match_score ∧ m.match_score ≤ 100) ∧
      (m.match_status = MatchStatus.EXACT ↔ 95 ≤ m.match_score) ∧
      (m.match_status = MatchStatus.UNMATCHED ↔
        (m.match_score = 0 ∧ m.loe_entry = none)) ∧
      (m.match_status = MatchStatus.FUZZY →
        defaultService.match_threshold ≤ m.match_score ∧ m.match_score < 95) := by
  intro m hm
  rw [validate_task_matches] at hm
  rcases List.mem_map.mp hm with ⟨m0, hm0, rfl⟩
  obtain ⟨hent, hstat, hscore, _⟩ := enrichMatch_preserves defaultService m0
  obtain ⟨_, _, _, _, _, hge0, hle100, hexact, hfuzzy, hunm, hne0⟩ :=
    matchTasksAux_mem defaultService.match_threshold es ts [] m0 hm0
  rw [hent, hstat, hscore]
  refine ⟨⟨hge0, hle100⟩, hexact, ?_, hfuzzy⟩
  constructor
  · exact hunm
  · rintro ⟨h0, _⟩
    by_contra hne
    exact hne0 (by show (0 : ℚ) < 70; norm_num) hne h0

/-- Witness for C8 at a concrete run: the single unmatched match of a run
with no entries has its score inside the bounds. -/
theorem claim_c8_witness :
    0 ≤ ({ sow_task := alphaTask, match_status := MatchStatus.UNMATCHED } : TaskMatch).match_score ∧
    ({ sow_task := alphaTask, match_status := MatchStatus.UNMATCHED } : TaskMatch).match_score ≤ 100 :=
  (claim_c8_score_bounds [alphaTask] [] "Customer" "Project"
    { sow_task := alphaTask, match_status := MatchStatus.UNMATCHED }
    (by with_unfolding_all decide)).1

/-- Claim C6: for every task match holding an entry, the pipeline attaches a
complexity analysis and: if the actual effort is below half the expected
minimum, the validity flag is cleared and an under-estimation message goes to
`issues` (not `warnings`); else if it exceeds 1.5 times the expected maximum,
the flag is cleared but the message goes to `warnings` (not `issues`);
otherwise the flag stays true and no message is recorded.  Matches without an
entry are left untouched. -/
theorem claim_c6_duration_flags (ts : List SOWTask) (es : List LOEEntry)
    (c p : String) :
    ∀ m ∈ (defaultService.validate ts es c p).task_matches,
      (m.loe_entry = none → m.complexity_analysis = none ∧
        m.duration_valid = true ∧ m.issues = [] ∧ m.warnings = []) ∧
      (∀ e, m.loe_entry = some e → ∃ a, m.complexity_analysis = some a ∧
        ((pyOr e.total_days e.days < a.expected_days_min * 0.5 →
          m.duration_valid = false ∧ m.issues.length = 1 ∧ m.warnings = []) ∧
         (¬ pyOr e.total_days e.days < a.expected_days_min * 0.5 →
            a.expected_days_max * 1.5 < pyOr e.total_days e.days →
          m.duration_valid = false ∧ m.warnings.length = 1 ∧ m.issues = []) ∧
         (¬ pyOr e.total_days e.days < a.expected_days_min * 0.5 →
          ¬ a.expected_days_max * 1.5 < pyOr e.total_days e.days →
          m.duration_valid = true ∧ m.issues = [] ∧ m.warnings = []))) := by
  intro m hm
  rw [validate_task_matches] at hm
  rcases List.mem_map.mp hm with ⟨m0, hm0, rfl⟩
  obtain ⟨hana0, hvalid0, hvar0, hiss0, hwarn0, _⟩ :=
    matchTasksAux_mem defaultService.match_threshold es ts [] m0 hm0
  obtain ⟨hent, _, _, _⟩ := enrichMatch_preserves defaultService m0
  rcases h0 : m0.loe_entry with _ | entry
  · -- no entry: enrichMatch is the identity here
    rw [enrichMatch_none defaultService m0 h0]
    refine ⟨fun _ => ⟨hana0, hvalid0, hiss0, hwarn0⟩, ?_⟩
    intro e he
    rw [h0] at he
    simp at he
  · -- an entry is attached: the three duration branches
    have hmid : 0 < ((defaultService.analyzeComplexity m0.sow_task.description
        m0.sow_task.task).expected_days_min +
        (defaultService.analyzeComplexity m0.sow_task.description
          m0.sow_task.task).expected_days_max) / 2 := by
      obtain ⟨_, _, hmin, hmax⟩ :=
        analyzeComplexity_pos m0.sow_task.description m0.sow_task.task
      linarith
    obtain ⟨hana, hunder, hover, hok⟩ :=
      enrichMatch_spec defaultService m0 entry h0 hmid
    constructor
    · intro hnone
      rw [hent, h0] at hnone
      simp at hnone
    · intro e he
      rw [hent, h0] at he
      have he2 : entry = e := by
        simpa using he
      subst he2
      refine ⟨defaultService.analyzeComplexity m0.sow_task.description m0.sow_task.task,
        hana, ?_, ?_, ?_⟩
      · intro hcond
        obtain ⟨hv, hi, hw⟩ := hunder hcond
        exact ⟨hv, by rw [hi, hiss0]; simp, by rw [hw, hwarn0]⟩
      · intro hc1 hc2
        obtain ⟨hv, hw, hi⟩ := hover hc1 hc2
        exact ⟨hv, by rw [hw, hwarn0]; simp, by rw [hi, hiss0]⟩
      · intro hc1 hc2
        obtain ⟨hv, hi, hw⟩ := hok hc1 hc2
        exact ⟨by rw [hv, hvalid0], by rw [hi, hiss0], by rw [hw, hwarn0]⟩

/-- Witness for C6 at a concrete run: the unmatched match of an entry-less
run keeps its default duration fields. -/
theorem claim_c6_witness :
    ({ sow_task := alphaTask, match_status := MatchStatus.UNMATCHED } : TaskMatch).complexity_analysis = none ∧
    ({ sow_task := alphaTask, match_status := MatchStatus.UNMATCHED } : TaskMatch).duration_valid = true ∧
    ({ sow_task := alphaTask, match_status := MatchStatus.UNMATCHED } : TaskMatch).issues = [] ∧
    ({ sow_task := alphaTask, match_status := MatchStatus.UNMATCHED } : TaskMatch).warnings = [] :=
  (claim_c6_duration_flags [alphaTask] [] "Customer" "Project"
    { sow_task := alphaTask, match_status := MatchStatus.UNMATCHED }
    (by with_unfolding_all decide)).1 rfl

/-- Claim C10: complexity keyword detection is raw substring containment on
the lower-cased task+description text, not word-boundary matching: for the
task "Update address book" the analyzer contributes the architecture factor
for the keyword "dr" (multiplier 1.5), found only inside the word "address",
which never occurs as a separate token of the text. -/
theorem claim_c10_substring_detection :
    (defaultService.analyzeComplexity "" "Update address book").complexity_factors =
      [{ keyword := "dr", category := "architecture", multiplier := 1.5 }] ∧
    containsSub (lowerChars ("Update address book" ++ " " ++ "")) "dr".data = true ∧
    ¬ "dr".data ∈ splitWs (lowerChars ("Update address book" ++ " " ++ "")) := by
  with_unfolding_all decide

/-- Counterexample for C5: in a run where the single matched entry has
`total_days = 0.0` and `days = 5.0`, the aggregator's `total_loe_days` is 5
(the code's `total_days or days` treats `0.0` as absent), while
`effective_days` — which the claim says is used — is 0. -/
theorem claim_c5_counterexample :
    (defaultService.validate [alphaTask] [zeroTotalEntry] "Customer" "Project").total_loe_days = 5 ∧
    zeroTotalEntry.effective_days = 0 ∧ (5 : ℚ) ≠ 0 := by
  with_unfolding_all decide

/-- Claim C5 as amended: wherever an entry's effort is consumed (the duration
validator's actual value and both `total_loe_days` sums use the expression
`total_days or days`, modelled by `pyOr`), the value equals `total_days`
exactly when it is present and nonzero, and `days` otherwise; that is, it
agrees with `effective_days` except when `total_days = 0.0`, where `days` is
used instead. -/
theorem claim_c5_amended (e : LOEEntry) (svc : ValidatorService)
    (ts : List SOWTask) (es : List LOEEntry) (c p : String) :
    pyOr e.total_days e.days =
      (if e.total_days = some 0 then e.days else e.effective_days) ∧
    (svc.validate ts es c p).total_loe_days =
      (((svc.validate ts es c p).task_matches.filterMap (fun m => m.loe_entry)).map
        (fun x => pyOr x.total_days x.days)).sum +
      ((svc.validate ts es c p).orphaned_entries.map
        (fun x => pyOr x.total_days x.days)).sum := by
  constructor
  · rcases ht : e.total_days with _ | x
    · simp [pyOr, LOEEntry.effective_days, ht]
    · by_cases hx : x = 0
      · subst hx
        simp [pyOr, LOEEntry.effective_days, ht]
      · simp [pyOr, LOEEntry.effective_days, ht, hx]
  · exact validate_total_loe_days_eq svc ts es c p

/-- Claim C2: the matcher is greedy in input order.  If the best
not-yet-consumed candidate of the first scope item is entry `k` (with a score
at or above the threshold) and entry `k` is also the overall best candidate
of the second scope item, then: the winning score is attained at `k` as the
first maximum (all earlier entries score strictly less, all entries score at
most it, so the first entry achieving the maximum wins ties); the first item
claims entry `k`; and the second item is classified from its best candidate
among the remaining entries (which is never `k` and scores no better than its
original best) — attached when that next-best score reaches the threshold,
unmatched with score forced to 0 otherwise.  Earlier assignments are fixed
before later items are processed, so they are never re-ranked. -/
theorem claim_c2_greedy_priority (es : List LOEEntry) (t1 t2 : SOWTask)
    (s1 s2 : ℚ) (k : Nat)
    (h1 : findBest t1 es [] = (s1, some k))
    (hth : defaultService.match_threshold ≤ s1)
    (h2 : findBest t2 es [] = (s2, some k)) :
    (∃ e, es.get? k = some e ∧ s1 = matchScore t1 e ∧
      (∀ j e', j < k → es.get? j = some e' → matchScore t1 e' < s1) ∧
      (∀ j e', es.get? j = some e' → matchScore t1 e' ≤ s1)) ∧
    (∃ m1 m2, (defaultService.matchTasks [t1, t2] es).1 = [m1, m2] ∧
      m1.loe_entry = es.get? k ∧ m1.match_score = s1 ∧
      m1.match_status ≠ MatchStatus.UNMATCHED ∧
      (findBest t2 es [k]).2 ≠ some k ∧
      (findBest t2 es [k]).1 ≤ s2 ∧
      (defaultService.match_threshold ≤ (findBest t2 es [k]).1 →
        m2.loe_entry = (findBest t2 es [k]).2.bind (fun i => es.get? i) ∧
        m2.match_score = (findBest t2 es [k]).1 ∧
        m2.match_status ≠ MatchStatus.UNMATCHED) ∧
      ((findBest t2 es [k]).1 < defaultService.match_threshold →
        m2.match_status = MatchStatus.UNMATCHED ∧ m2.loe_entry = none ∧
        m2.match_score = 0)) := by
  obtain ⟨hk, _, hpos1, ⟨e, hget, hse⟩, hstrict, hle⟩ :=
    findBest_some_spec t1 es [] s1 k h1
  obtain ⟨_, _, hpos2, _, _, hle2⟩ := findBest_some_spec t2 es [] s2 k h2
  have hth95 : defaultService.match_threshold ≤ (95 : ℚ) := by
    show (70 : ℚ) ≤ 95
    norm_num
  refine ⟨⟨e, hget, hse, fun j e' hj hg => hstrict j e' hj hg (by simp),
    fun j e' hg => hle j e' hg (by simp)⟩, ?_⟩
  have hb2ne : (findBest t2 es [k]).2 ≠ some k := by
    rcases findBest_spec t2 es [k] with ⟨heq, _⟩ | ⟨k2, e2, _, hnu2, heq2, _, _, _⟩
    · rw [heq]
      simp
    · rw [heq2]
      simp only [ne_eq, Option.some.injEq]
      intro hcontra
      exact hnu2 (by simp [hcontra])
  have hb2le : (findBest t2 es [k]).1 ≤ s2 := by
    rcases findBest_spec t2 es [k] with ⟨heq, _⟩ | ⟨k2, e2, hget2, _, heq2, _, _, _⟩
    · rw [heq]
      exact le_of_lt hpos2
    · rw [heq2]
      exact hle2 k2 e2 hget2 (by simp)
  by_cases h95 : 95 ≤ s1
  · by_cases hb95 : 95 ≤ (findBest t2 es [k]).1
    · refine ⟨{ sow_task := t1, loe_entry := (List.get? es k), match_status := MatchStatus.EXACT, match_score := s1 },
        { sow_task := t2, loe_entry := (findBest t2 es [k]).2.bind (fun i => es.get? i), match_status := MatchStatus.EXACT, match_score := (findBest t2 es [k]).1 }, ?_, rfl, rfl, by simp,
        hb2ne, hb2le, fun _ => ⟨rfl, rfl, by simp⟩, ?_⟩
      · show (matchTasksAux defaultService.match_threshold es [t1, t2] []).1 = _
        simp [matchTasksAux, h1, h95, hb95]
      · intro hcontra
        exact absurd (le_trans hth95 hb95) (not_le.mpr hcontra)
    · by_cases hbth : defaultService.match_threshold ≤ (findBest t2 es [k]).1
      · refine ⟨{ sow_task := t1, loe_entry := (List.get? es k), match_status := MatchStatus.EXACT, match_score := s1 },
          { sow_task := t2, loe_entry := (findBest t2 es [k]).2.bind (fun i => es.get? i), match_status := MatchStatus.FUZZY, match_score := (findBest t2 es [k]).1 }, ?_, rfl, rfl, by simp,
          hb2ne, hb2le, fun _ => ⟨rfl, rfl, by simp⟩, ?_⟩
        · show (matchTasksAux defaultService.match_threshold es [t1, t2] []).1 = _
          simp [matchTasksAux, h1, h95, hb95, hbth]
        · intro hcontra
          exact absurd hbth (not_le.mpr hcontra)
      · refine ⟨{ sow_task := t1, loe_entry := (List.get? es k), match_status := MatchStatus.EXACT, match_score := s1 },
          { sow_task := t2, loe_entry := none, match_status := MatchStatus.UNMATCHED, match_score := 0 }, ?_, rfl, rfl, by simp,
          hb2ne, hb2le, fun hcontra => absurd hcontra hbth, fun _ => ⟨rfl, rfl, rfl⟩⟩
        show (matchTasksAux defaultService.match_threshold es [t1, t2] []).1 = _
        simp [matchTasksAux, h1, h95, hb95, hbth]
  · by_cases hb95 : 95 ≤ (findBest t2 es [k]).1
    · refine ⟨{ sow_task := t1, loe_entry := (List.get? es k), match_status := MatchStatus.FUZZY, match_score := s1 },
        { sow_task := t2, loe_entry := (findBest t2 es [k]).2.bind (fun i => es.get? i), match_status := MatchStatus.EXACT, match_score := (findBest t2 es [k]).1 }, ?_, rfl, rfl, by simp,
        hb2ne, hb2le, fun _ => ⟨rfl, rfl, by simp⟩, ?_⟩
      · show (matchTasksAux defaultService.match_threshold es [t1, t2] []).1 = _
        simp [matchTasksAux, h1, h95, hth, hb95]
      · intro hcontra
        exact absurd (le_trans hth95 hb95) (not_le.mpr hcontra)
    · by_cases hbth : defaultService.match_threshold ≤ (findBest t2 es [k]).1
      · refine ⟨{ sow_task := t1, loe_entry := (List.get? es k), match_status := MatchStatus.FUZZY, match_score := s1 },
          { sow_task := t2, loe_entry := (findBest t2 es [k]).2.bind (fun i => es.get? i), match_status := MatchStatus.FUZZY, match_score := (findBest t2 es [k]).1 }, ?_, rfl, rfl, by simp,
          hb2ne, hb2le, fun _ => ⟨rfl, rfl, by simp⟩, ?_⟩
        · show (matchTasksAux defaultService.match_threshold es [t1, t2] []).1 = _
          simp [matchTasksAux, h1, h95, hth, hb95, hbth]
        · intro hcontra
          exact absurd hbth (not_le.mpr hcontra)
      · refine ⟨{ sow_task := t1, loe_entry := (List.get? es k), match_status := MatchStatus.FUZZY, match_score := s1 },
          { sow_task := t2, loe_entry := none, match_status := MatchStatus.UNMATCHED, match_score := 0 }, ?_, rfl, rfl, by simp,
          hb2ne, hb2le, fun hcontra => absurd hcontra hbth, fun _ => ⟨rfl, rfl, rfl⟩⟩
        show (matchTasksAux defaultService.match_threshold es [t1, t2] []).1 = _
        simp [matchTasksAux, h1, h95, hth, hb95, hbth]

/-- Witness for C2 at a concrete contested input: two identical scope items
both best-match the first of two entries; the earlier claims it and the later
one is classified from the remaining entry. -/
theorem claim_c2_witness :
    ∃ m1 m2,
      (defaultService.matchTasks [alphaTask, alphaTask] [alphaEntry, betaEntry]).1 = [m1, m2] ∧
      m1.loe_entry = [alphaEntry, betaEntry].get? 0 ∧
      m1.match_score = 100 ∧
      m1.match_status ≠ MatchStatus.UNMATCHED ∧
      (findBest alphaTask [alphaEntry, betaEntry] [0]).2 ≠ some 0 ∧
      (findBest alphaTask [alphaEntry, betaEntry] [0]).1 ≤ 100 ∧
      (defaultService.match_threshold ≤ (findBest alphaTask [alphaEntry, betaEntry] [0]).1 →
        m2.loe_entry = (findBest alphaTask [alphaEntry, betaEntry] [0]).2.bind
          (fun i => [alphaEntry, betaEntry].get? i) ∧
        m2.match_score = (findBest alphaTask [alphaEntry, betaEntry] [0]).1 ∧
        m2.match_status ≠ MatchStatus.UNMATCHED) ∧
      ((findBest alphaTask [alphaEntry, betaEntry] [0]).1 < defaultService.match_threshold →
        m2.match_status = MatchStatus.UNMATCHED ∧ m2.loe_entry = none ∧
        m2.match_score = 0) :=
  (claim_c2_greedy_priority [alphaEntry, betaEntry] alphaTask alphaTask 100 100 0
    (by with_unfolding_all decide)
    (by show (70 : ℚ) ≤ 100; norm_num)
    (by with_unfolding_all decide)).2

/-- Counterexample for C4: on the HA-cluster scenario text the analyzer
detects no task type at all — the text contains "install" but never the
configured key "installation" — so the base is the 1.5 default, not 1.0, and
the expected range is [1.8, 3.375], not [1.2, 2.25]. -/
theorem claim_c4_counterexample :
    (defaultService.analyzeComplexity "deploy stretched cluster with high availability"
      "Install HA cluster").detected_task_type = none ∧
    ¬ (defaultService.analyzeComplexity "deploy stretched cluster with high availability"
      "Install HA cluster").detected_task_type = some "installation" ∧
    (defaultService.analyzeComplexity "deploy stretched cluster with high availability"
      "Install HA cluster").base_days = 3/2 ∧
    ¬ (defaultService.analyzeComplexity "deploy stretched cluster with high availability"
      "Install HA cluster").expected_days_min = 1.2 ∧
    ¬ (defaultService.analyzeComplexity "deploy stretched cluster with high availability"
      "Install HA cluster").expected_days_max = 2.25 := by
  with_unfolding_all decide

set_option maxRecDepth 40000 in
/-- Claim C4 as amended: on the HA-cluster scenario the pipeline yields score
100 with status exact; no detected task type (default base 1.5); exactly one
architecture factor ("high availability", 1.5); total multiplier 1.5;
expected range [1.8, 3.375]; duration_valid false with one over-estimation
warning (and no issue) because 10 exceeds 3.375 × 1.5 = 5.0625; variance
exactly 59300/207 ≈ +286.5%; no critical issues, no orphans, and overall
status WARNING. -/
theorem claim_c4_amended :
    ∃ m, (defaultService.validate [haTask] [haEntry] "Customer" "Project").task_matches = [m] ∧
      m.match_score = 100 ∧ m.match_status = MatchStatus.EXACT ∧
      m.loe_entry = some haEntry ∧
      (∃ a, m.complexity_analysis = some a ∧
        a.detected_task_type = none ∧ a.base_days = 3/2 ∧
        a.complexity_factors = [{ keyword := "high availability", category := "architecture", multiplier := 3/2 }] ∧
        a.total_multiplier = 3/2 ∧ a.expected_days_min = 9/5 ∧ a.expected_days_max = 27/8) ∧
      m.duration_valid = false ∧ m.issues = [] ∧ m.warnings.length = 1 ∧
      m.duration_variance = some (59300/207) ∧
      (defaultService.validate [haTask] [haEntry] "Customer" "Project").status = ValidationStatus.WARNING ∧
      (defaultService.validate [haTask] [haEntry] "Customer" "Project").critical_issues = [] ∧
      (defaultService.validate [haTask] [haEntry] "Customer" "Project").orphaned_entries = [] := by
  have hscore : matchScore haTask haEntry = 100 := by
    with_unfolding_all decide
  have hfb : findBest haTask [haEntry] [] = (100, some 0) := by
    unfold findBest
    norm_num [findBestAux, hscore]
  have hmt : defaultService.matchTasks [haTask] [haEntry] =
      ([{ sow_task := haTask, loe_entry := some haEntry, match_status := MatchStatus.EXACT, match_score := 100 }], []) := by
    unfold ValidatorService.matchTasks
    norm_num [matchTasksAux, hfb, List.range_succ]
  have henr : defaultService.enrichMatch { sow_task := haTask, loe_entry := some haEntry, match_status := MatchStatus.EXACT, match_score := 100 } =
      { sow_task := haTask, loe_entry := some haEntry, match_status := MatchStatus.EXACT, match_score := 100, complexity_analysis := some { task_description := "deploy stretched cluster with high availability", detected_task_type := none, base_days := 3/2, complexity_factors := [{ keyword := "high availability", category := "architecture", multiplier := 3/2 }], total_multiplier := 3/2, expected_days_min := 9/5, expected_days_max := 27/8, reasoning := "Task type: general. Complexity factors detected: high availability. Combined multiplier: x" }, duration_valid := false, duration_variance := some (59300/207), issues := [], warnings := ["Duration may be over-estimated: days vs expected days"] } := by
    have hana : defaultService.analyzeComplexity haTask.description haTask.task =
        { task_description := "deploy stretched cluster with high availability", detected_task_type := none, base_days := 3/2, complexity_factors := [{ keyword := "high availability", category := "architecture", multiplier := 3/2 }], total_multiplier := 3/2, expected_days_min := 9/5, expected_days_max := 27/8, reasoning := "Task type: general. Complexity factors detected: high availability. Combined multiplier: x" } := by
      with_unfolding_all decide
    simp only [ValidatorService.enrichMatch]
    norm_num [hana, pyOr, haEntry]
  have htm : (defaultService.validate [haTask] [haEntry] "Customer" "Project").task_matches =
      [{ sow_task := haTask, loe_entry := some haEntry, match_status := MatchStatus.EXACT, match_score := 100, complexity_analysis := some { task_description := "deploy stretched cluster with high availability", detected_task_type := none, base_days := 3/2, complexity_factors := [{ keyword := "high availability", category := "architecture", multiplier := 3/2 }], total_multiplier := 3/2, expected_days_min := 9/5, expected_days_max := 27/8, reasoning := "Task type: general. Complexity factors detected: high availability. Combined multiplier: x" }, duration_valid := false, duration_variance := some (59300/207), issues := [], warnings := ["Duration may be over-estimated: days vs expected days"] }] := by
    rw [validate_task_matches, hmt]
    simp only [List.map_cons, List.map_nil, henr]
  have horph : (defaultService.validate [haTask] [haEntry] "Customer" "Project").orphaned_entries = [] := by
    rw [validate_orphaned_entries, hmt]
  have hunm : (defaultService.validate [haTask] [haEntry] "Customer" "Project").unmatched_sow_tasks = 0 := by
    rw [validate_unmatched_eq, htm]
    simp
  have hcrit : (defaultService.validate [haTask] [haEntry] "Customer" "Project").critical_issues = [] := by
    rw [validate_critical_issues_eq, hunm]
    simp
  have hwarn : (defaultService.validate [haTask] [haEntry] "Customer" "Project").warnings =
      ["task(s) have duration concerns. Review the Duration Analysis section."] := by
    rw [validate_warnings_eq, horph, htm]
    simp
  have hstatus : (defaultService.validate [haTask] [haEntry] "Customer" "Project").status =
      ValidationStatus.WARNING := by
    rw [validate_status_eq, hcrit, hwarn]
    simp
  refine ⟨_, htm, rfl, rfl, rfl, ⟨_, rfl, rfl, rfl, rfl, rfl, rfl, rfl⟩, rfl, rfl, rfl, rfl,
    hstatus, hcrit, horph⟩

end LOE
